import Mathlib

/-!
Verification of the UPS invoice parsing repository against its
natural-language specification.

The development shallowly embeds the Python source:

* `matrix_processor.py` — the totals calculator `_calculate_correct_totals`,
  the date parser `_parse_date`, and the post-processing of tracking numbers
  (`_post_process_shipment_data`);
* `ups-invoice-parsing/ups_field_definitions.py` — the catalog's surcharge
  field names;
* `ups-invoice-parsing/invoice_parser.py` — the shipment segmenter
  `_split_into_enhanced_shipment_matrices`, the record filter in
  `parse_invoice`, and its own `_parse_date`;
* `ups-invoice-parsing/app.py` — the record merger
  `merge_direct_fields_with_matrix` and the identity resolver
  `_extract_five_fields`;
* `text_extractor.py` — the invoice boundary detector
  `extract_invoice_groups`.

Python `float` currency values are embedded as `Option ℚ` (absent = `None`),
text as `List Char` or `String`, and each regular expression is transcribed
as an explicit executable matcher whose comment cites the pattern it embeds.
-/

namespace UPSParse

/-! ### Monetary values and Python truthiness -/

/-- A monetary field of the shipment dictionary: `None` or a number. -/
abbrev Money := Option ℚ

/-- Python truthiness of an optional number: `None` and `0` are falsy. -/
def truthyNum : Money → Bool
  | none => false
  | some x => decide (x ≠ 0)

/-- Value of an optional number with `None` read as 0. -/
def orZero (v : Money) : ℚ := v.getD 0

/-! ### The shipment record

`matrix_processor.py` keeps a shipment as a Python dict.  The fields the
totals calculator touches are embedded as named components; the dynamic
`f"{surcharge}_published"` / `..._incentive` / `..._billed` keys are embedded
as three finite maps from the surcharge name to the stored value. -/

structure Shipment where
  published_charge : Money := none
  incentive_credit : Money := none
  billed_charge : Money := none
  surPub : String → Money := fun _ => none
  surInc : String → Money := fun _ => none
  surBill : String → Money := fun _ => none
  line_total_published : Money := none
  line_total_incentive : Money := none
  line_total_billed : Money := none
  line_total : Option (ℚ × ℚ × ℚ) := none

/-! ### The totals calculator (`_calculate_correct_totals`) -/

/-- The fixed `surcharge_fields` list iterated by
`_calculate_correct_totals` (matrix_processor.py lines 256-262), in source
order. -/
def surcharge_fields : List String :=
  ["fuel_surcharge", "residential_surcharge", "delivery_area_surcharge",
   "large_package_surcharge", "additional_handling", "saturday_delivery",
   "signature_required", "adult_signature_required", "address_correction",
   "over_maximum_limits", "peak_surcharge", "hazmat_surcharge",
   "dry_ice_surcharge", "cod_surcharge"]

/-- One `if shipment.get(key): total += shipment[key]` step.  The
`isinstance` guard of the source always holds here because the embedded
fields are numeric by construction. -/
def addIfTruthy (acc : ℚ) (v : Money) : ℚ :=
  if truthyNum v then acc + orZero v else acc

/-- The accumulated `published_total`. -/
def publishedTotal (s : Shipment) : ℚ :=
  surcharge_fields.foldl (fun acc n => addIfTruthy acc (s.surPub n))
    (addIfTruthy 0 s.published_charge)

/-- The accumulated `incentive_total`. -/
def incentiveTotal (s : Shipment) : ℚ :=
  surcharge_fields.foldl (fun acc n => addIfTruthy acc (s.surInc n))
    (addIfTruthy 0 s.incentive_credit)

/-- The accumulated `billed_total`. -/
def billedTotal (s : Shipment) : ℚ :=
  surcharge_fields.foldl (fun acc n => addIfTruthy acc (s.surBill n))
    (addIfTruthy 0 s.billed_charge)

/-- The guard `published_total > 0 or incentive_total != 0 or
billed_total > 0` of matrix_processor.py line 277. -/
def writeGuard (s : Shipment) : Prop :=
  0 < publishedTotal s ∨ incentiveTotal s ≠ 0 ∨ 0 < billedTotal s

instance (s : Shipment) : Decidable (writeGuard s) := by
  unfold writeGuard; infer_instance

/-- Embedding of `_calculate_correct_totals` (matrix_processor.py lines
239-289): accumulate the three totals over the base charges and the fixed
surcharge list, and store them only when the guard holds. -/
def calcTotals (s : Shipment) : Shipment :=
  if writeGuard s then
    { s with line_total_published := some (publishedTotal s),
             line_total_incentive := some (incentiveTotal s),
             line_total_billed := some (billedTotal s),
             line_total := some (publishedTotal s, incentiveTotal s, billedTotal s) }
  else s

theorem calcTotals_of_guard (s : Shipment) (h : writeGuard s) :
    calcTotals s =
      { s with line_total_published := some (publishedTotal s),
               line_total_incentive := some (incentiveTotal s),
               line_total_billed := some (billedTotal s),
               line_total := some (publishedTotal s, incentiveTotal s, billedTotal s) } := by
  unfold calcTotals
  exact if_pos h

theorem calcTotals_of_not_guard (s : Shipment) (h : ¬ writeGuard s) :
    calcTotals s = s := by
  unfold calcTotals
  exact if_neg h

/-! ### The catalog's surcharge triples

`ups_field_definitions.py` registers `currency_triple` fields of category
`Surcharges`: three written out explicitly (lines 337-372) and twenty-three
more via the `surcharge_types` table (lines 375-399). -/

/-- Every surcharge `currency_triple` field name of the catalog, in source
order. -/
def catalog_surcharge_fields : List String :=
  ["residential_surcharge", "fuel_surcharge", "delivery_area_surcharge",
   "large_package_surcharge", "additional_handling", "saturday_delivery",
   "saturday_pickup", "signature_required", "adult_signature_required",
   "direct_signature_required", "address_correction", "over_maximum_limits",
   "peak_surcharge", "holiday_surcharge", "hazmat_surcharge",
   "dry_ice_surcharge", "declared_value_charge", "cod_surcharge",
   "carbon_neutral", "lift_gate_surcharge", "inside_pickup",
   "inside_delivery", "call_tag_surcharge", "quantum_view",
   "ups_premium_care", "missing_pld_fee"]

/-- Published-component total as the specification describes it: base charge
plus the corresponding scalar of every known (catalog) surcharge triple, an
unset component contributing 0. -/
def specPublishedTotal (s : Shipment) : ℚ :=
  orZero s.published_charge +
    (catalog_surcharge_fields.map (fun n => orZero (s.surPub n))).sum

/-- Published-component total over the calculator's own fourteen-name list,
an unset component contributing 0. -/
def calcPublishedSum (s : Shipment) : ℚ :=
  orZero s.published_charge +
    (surcharge_fields.map (fun n => orZero (s.surPub n))).sum

/-- Incentive-component total over the calculator's list. -/
def calcIncentiveSum (s : Shipment) : ℚ :=
  orZero s.incentive_credit +
    (surcharge_fields.map (fun n => orZero (s.surInc n))).sum

/-- Billed-component total over the calculator's list. -/
def calcBilledSum (s : Shipment) : ℚ :=
  orZero s.billed_charge +
    (surcharge_fields.map (fun n => orZero (s.surBill n))).sum

/-! ### Arithmetic facts about the accumulation -/

theorem addIfTruthy_eq (acc : ℚ) (v : Money) : addIfTruthy acc v = acc + orZero v := by
  cases v with
  | none => simp [addIfTruthy, truthyNum, orZero]
  | some x =>
    by_cases hx : x = 0 <;> simp [addIfTruthy, truthyNum, orZero, hx]

theorem foldl_addIfTruthy (f : String → Money) (l : List String) (a : ℚ) :
    l.foldl (fun acc n => addIfTruthy acc (f n)) a
      = a + (l.map (fun n => orZero (f n))).sum := by
  induction l generalizing a with
  | nil => simp
  | cons x xs ih =>
    simp only [List.foldl_cons, List.map_cons, List.sum_cons]
    rw [ih, addIfTruthy_eq]
    ring

theorem publishedTotal_eq (s : Shipment) : publishedTotal s = calcPublishedSum s := by
  unfold publishedTotal calcPublishedSum
  rw [foldl_addIfTruthy, addIfTruthy_eq]
  ring

theorem incentiveTotal_eq (s : Shipment) : incentiveTotal s = calcIncentiveSum s := by
  unfold incentiveTotal calcIncentiveSum
  rw [foldl_addIfTruthy, addIfTruthy_eq]
  ring

theorem billedTotal_eq (s : Shipment) : billedTotal s = calcBilledSum s := by
  unfold billedTotal calcBilledSum
  rw [foldl_addIfTruthy, addIfTruthy_eq]
  ring

/-! ### Concrete records used as counterexamples and witnesses -/

/-- The specification's worked example: base charges 10.00 / -2.00 / 8.00
and one fuel surcharge triple (1.00, 0.00, 1.00). -/
def exampleShipment : Shipment :=
  { published_charge := some 10,
    incentive_credit := some (-2),
    billed_charge := some 8,
    surPub := fun n => if n = "fuel_surcharge" then some 1 else none,
    surInc := fun n => if n = "fuel_surcharge" then some 0 else none,
    surBill := fun n => if n = "fuel_surcharge" then some 1 else none }

/-- A record carrying a catalog surcharge (`saturday_pickup`) that the
calculator's fixed list omits. -/
def saturdayPickupShipment : Shipment :=
  { published_charge := some 10,
    incentive_credit := some (-2),
    billed_charge := some 8,
    surPub := fun n => if n = "saturday_pickup" then some 5 else none,
    surInc := fun n => if n = "saturday_pickup" then some 0 else none,
    surBill := fun n => if n = "saturday_pickup" then some 5 else none }

/-- A record whose only contributing value is a negative published charge. -/
def negOnlyShipment : Shipment :=
  { published_charge := some (-1) }

/-- The fully empty record. -/
def emptyShipment : Shipment := { }

/-! ### Evaluation lemmas for the concrete records -/

theorem publishedTotal_example : publishedTotal exampleShipment = 11 := by
  rw [publishedTotal_eq]
  simp [calcPublishedSum, surcharge_fields, exampleShipment, orZero]
  norm_num

theorem incentiveTotal_example : incentiveTotal exampleShipment = -2 := by
  rw [incentiveTotal_eq]
  simp [calcIncentiveSum, surcharge_fields, exampleShipment, orZero]

theorem billedTotal_example : billedTotal exampleShipment = 9 := by
  rw [billedTotal_eq]
  simp [calcBilledSum, surcharge_fields, exampleShipment, orZero]
  norm_num

theorem writeGuard_example : writeGuard exampleShipment := by
  unfold writeGuard
  rw [publishedTotal_example]
  norm_num

theorem publishedTotal_satPickup : publishedTotal saturdayPickupShipment = 10 := by
  rw [publishedTotal_eq]
  simp [calcPublishedSum, surcharge_fields, saturdayPickupShipment, orZero]

theorem incentiveTotal_satPickup : incentiveTotal saturdayPickupShipment = -2 := by
  rw [incentiveTotal_eq]
  simp [calcIncentiveSum, surcharge_fields, saturdayPickupShipment, orZero]

theorem writeGuard_satPickup : writeGuard saturdayPickupShipment := by
  unfold writeGuard
  rw [incentiveTotal_satPickup]
  norm_num

theorem specPublishedTotal_satPickup :
    specPublishedTotal saturdayPickupShipment = 15 := by
  simp [specPublishedTotal, catalog_surcharge_fields, saturdayPickupShipment,
    orZero]
  norm_num

theorem publishedTotal_negOnly : publishedTotal negOnlyShipment = -1 := by
  rw [publishedTotal_eq]
  simp [calcPublishedSum, surcharge_fields, negOnlyShipment, orZero]

theorem incentiveTotal_negOnly : incentiveTotal negOnlyShipment = 0 := by
  rw [incentiveTotal_eq]
  simp [calcIncentiveSum, surcharge_fields, negOnlyShipment, orZero]

theorem billedTotal_negOnly : billedTotal negOnlyShipment = 0 := by
  rw [billedTotal_eq]
  simp [calcBilledSum, surcharge_fields, negOnlyShipment, orZero]

theorem not_writeGuard_negOnly : ¬ writeGuard negOnlyShipment := by
  unfold writeGuard
  rw [publishedTotal_negOnly, incentiveTotal_negOnly, billedTotal_negOnly]
  norm_num

theorem publishedTotal_empty : publishedTotal emptyShipment = 0 := by
  rw [publishedTotal_eq]
  simp [calcPublishedSum, surcharge_fields, emptyShipment, orZero]

theorem incentiveTotal_empty : incentiveTotal emptyShipment = 0 := by
  rw [incentiveTotal_eq]
  simp [calcIncentiveSum, surcharge_fields, emptyShipment, orZero]

theorem billedTotal_empty : billedTotal emptyShipment = 0 := by
  rw [billedTotal_eq]
  simp [calcBilledSum, surcharge_fields, emptyShipment, orZero]

theorem not_writeGuard_empty : ¬ writeGuard emptyShipment := by
  unfold writeGuard
  rw [publishedTotal_empty, incentiveTotal_empty, billedTotal_empty]
  norm_num

/-! ## C1 — totals as a sum of base charges and surcharges -/

/-- Claim C1 counterexample: on a record holding a `saturday_pickup`
surcharge triple — a known catalog surcharge — the computed
`line_total_published` is not the sum of the base charge and the
corresponding scalar of every known surcharge triple present on the record:
the calculator sums only its fixed fourteen-name list. -/
theorem C1_counterexample :
    (calcTotals saturdayPickupShipment).line_total_published
      ≠ some (specPublishedTotal saturdayPickupShipment) := by
  rw [calcTotals_of_guard _ writeGuard_satPickup]
  rw [specPublishedTotal_satPickup]
  simp only [publishedTotal_satPickup]
  norm_num

/-- C1, amended.  Whenever the calculator writes (its guard holds), each
line total equals the corresponding base-charge scalar plus the
corresponding scalar of every surcharge triple in the calculator's fixed
fourteen-name list, an unset component contributing 0; moreover on the
specification's worked example (base 10.00 / -2.00 / 8.00 plus fuel
surcharge (1.00, 0.00, 1.00)) the computed totals are 11.00 / -2.00 / 9.00. -/
theorem C1_totals_amended :
    (∀ s : Shipment, writeGuard s →
        (calcTotals s).line_total_published = some (calcPublishedSum s) ∧
        (calcTotals s).line_total_incentive = some (calcIncentiveSum s) ∧
        (calcTotals s).line_total_billed = some (calcBilledSum s)) ∧
    (calcTotals exampleShipment).line_total_published = some 11 ∧
    (calcTotals exampleShipment).line_total_incentive = some (-2) ∧
    (calcTotals exampleShipment).line_total_billed = some 9 := by
  have hgen : ∀ s : Shipment, writeGuard s →
      (calcTotals s).line_total_published = some (calcPublishedSum s) ∧
      (calcTotals s).line_total_incentive = some (calcIncentiveSum s) ∧
      (calcTotals s).line_total_billed = some (calcBilledSum s) := by
    intro s hs
    rw [calcTotals_of_guard s hs]
    exact ⟨by simp [publishedTotal_eq], by simp [incentiveTotal_eq],
      by simp [billedTotal_eq]⟩
  refine ⟨hgen, ?_, ?_, ?_⟩
  · rw [calcTotals_of_guard _ writeGuard_example]
    simp [publishedTotal_example]
  · rw [calcTotals_of_guard _ writeGuard_example]
    simp [incentiveTotal_example]
  · rw [calcTotals_of_guard _ writeGuard_example]
    simp [billedTotal_example]

/-- Witness for C1: the amended theorem applied to the worked example,
whose guard holds concretely. -/
theorem C1_totals_amended_witness :
    (calcTotals exampleShipment).line_total_published
      = some (calcPublishedSum exampleShipment) :=
  (C1_totals_amended.1 exampleShipment writeGuard_example).1

/-! ## C8 — totals written only when a contribution exists -/

/-- Every contributing value (base-charge scalar or surcharge component in
the calculator's list) is unset or zero. -/
def allContribZero (s : Shipment) : Prop :=
  orZero s.published_charge = 0 ∧ orZero s.incentive_credit = 0 ∧
  orZero s.billed_charge = 0 ∧
  ∀ n ∈ surcharge_fields,
    orZero (s.surPub n) = 0 ∧ orZero (s.surInc n) = 0 ∧ orZero (s.surBill n) = 0

/-- Claim C8 counterexample: a record whose only contributing value is the
non-zero published charge -1.00 still gets no totals written (the guard
`published_total > 0 or incentive_total != 0 or billed_total > 0` fails),
refuting the claimed "written if and only if at least one contributing
value is non-zero/non-null". -/
theorem C8_counterexample :
    truthyNum negOnlyShipment.published_charge = true ∧
    (calcTotals negOnlyShipment).line_total_published = none ∧
    (calcTotals negOnlyShipment).line_total_incentive = none ∧
    (calcTotals negOnlyShipment).line_total_billed = none := by
  rw [calcTotals_of_not_guard _ not_writeGuard_negOnly]
  refine ⟨?_, rfl, rfl, rfl⟩
  norm_num [truthyNum, negOnlyShipment]

/-- C8, amended.  The calculator writes the line totals exactly when its
guard holds (published sum positive, or incentive sum non-zero, or billed
sum positive); a write implies some contributing value is non-zero; and when
the guard fails — in particular when every contributing value is unset or
zero — the record is returned unchanged (no fabricated zero total). -/
theorem C8_write_guard_amended :
    ∀ s : Shipment,
      (writeGuard s →
          (calcTotals s).line_total_published = some (publishedTotal s) ∧
          (calcTotals s).line_total_incentive = some (incentiveTotal s) ∧
          (calcTotals s).line_total_billed = some (billedTotal s)) ∧
      (¬ writeGuard s → calcTotals s = s) ∧
      (writeGuard s → ¬ allContribZero s) := by
  intro s
  refine ⟨fun hs => ?_, fun hs => calcTotals_of_not_guard s hs, fun hs hz => ?_⟩
  · rw [calcTotals_of_guard s hs]
    exact ⟨rfl, rfl, rfl⟩
  · obtain ⟨hp, hi, hb, hsur⟩ := hz
    have hps : publishedTotal s = 0 := by
      rw [publishedTotal_eq]
      unfold calcPublishedSum
      rw [hp, List.sum_eq_zero, add_zero]
      intro x hx
      obtain ⟨n, hn, rfl⟩ := List.mem_map.mp hx
      exact (hsur n hn).1
    have his : incentiveTotal s = 0 := by
      rw [incentiveTotal_eq]
      unfold calcIncentiveSum
      rw [hi, List.sum_eq_zero, add_zero]
      intro x hx
      obtain ⟨n, hn, rfl⟩ := List.mem_map.mp hx
      exact (hsur n hn).2.1
    have hbs : billedTotal s = 0 := by
      rw [billedTotal_eq]
      unfold calcBilledSum
      rw [hb, List.sum_eq_zero, add_zero]
      intro x hx
      obtain ⟨n, hn, rfl⟩ := List.mem_map.mp hx
      exact (hsur n hn).2.2
    rcases hs with h | h | h
    · rw [hps] at h; exact lt_irrefl 0 h
    · exact h his
    · rw [hbs] at h; exact lt_irrefl 0 h

/-- Witness for C8: the amended theorem applied to the worked example
(guard holds, totals written) and to the empty record (guard fails, record
unchanged). -/
theorem C8_write_guard_amended_witness :
    (calcTotals exampleShipment).line_total_published
        = some (publishedTotal exampleShipment) ∧
    calcTotals emptyShipment = emptyShipment :=
  ⟨((C8_write_guard_amended exampleShipment).1 writeGuard_example).1,
   ((C8_write_guard_amended emptyShipment).2.1 not_writeGuard_empty)⟩

/-! ## C9 — idempotence of the totals calculator -/

theorem publishedTotal_calcTotals (s : Shipment) :
    publishedTotal (calcTotals s) = publishedTotal s := by
  unfold calcTotals
  split <;> rfl

theorem incentiveTotal_calcTotals (s : Shipment) :
    incentiveTotal (calcTotals s) = incentiveTotal s := by
  unfold calcTotals
  split <;> rfl

theorem billedTotal_calcTotals (s : Shipment) :
    billedTotal (calcTotals s) = billedTotal s := by
  unfold calcTotals
  split <;> rfl

/-- C9, confirmed.  The totals calculator is idempotent: it reads only the
base charges and surcharge components, which it never writes, so a second
application recomputes and stores the same totals and the record is
unchanged. -/
theorem C9_calcTotals_idempotent :
    ∀ s : Shipment, calcTotals (calcTotals s) = calcTotals s := by
  intro s
  by_cases h : writeGuard s
  · have h2 : writeGuard (calcTotals s) := by
      unfold writeGuard at h ⊢
      rw [publishedTotal_calcTotals, incentiveTotal_calcTotals,
        billedTotal_calcTotals]
      exact h
    rw [calcTotals_of_guard (calcTotals s) h2]
    rw [publishedTotal_calcTotals, incentiveTotal_calcTotals,
      billedTotal_calcTotals]
    rw [calcTotals_of_guard s h]
  · have h2 : ¬ writeGuard (calcTotals s) := by
      unfold writeGuard at h ⊢
      rw [publishedTotal_calcTotals, incentiveTotal_calcTotals,
        billedTotal_calcTotals]
      exact h
    rw [calcTotals_of_not_guard (calcTotals s) h2]

/-! ## Date parsing (`_parse_date`)

Both parser files define a `_parse_date(value, invoice_year=None)`.  The
ambient call `datetime.now().year` is embedded as an explicit `nowYear`
argument; text is embedded as `List Char`. -/

/-- Python whitespace for `str.strip()` / `\s`. -/
def isWS (c : Char) : Bool :=
  c = ' ' || c = '\t' || c = '\n' || c = '\x0d' || c = '\x0b' || c = '\x0c'

/-- Python `str.strip()`: drop whitespace from both ends. -/
def pyStrip (cs : List Char) : List Char :=
  ((cs.dropWhile isWS).reverse.dropWhile isWS).reverse

/-- Number of leading decimal digits. -/
def countLeadingDigits : List Char → Nat
  | [] => 0
  | c :: rest => if c.isDigit then countLeadingDigits rest + 1 else 0

/-- Value of a non-empty all-digit character list. -/
def digitsToNat (cs : List Char) : Option Nat :=
  if cs ≠ [] ∧ cs.all Char.isDigit then
    some (cs.foldl (fun a c => 10 * a + (c.toNat - 48)) 0)
  else none

/-- Python `int(...)` on a string: optional surrounding whitespace, optional
sign, decimal digits; anything else raises (embedded as `none`). -/
def pyInt (s : List Char) : Option Int :=
  match pyStrip s with
  | '-' :: rest => (digitsToNat rest).map (fun n => -(n : Int))
  | '+' :: rest => (digitsToNat rest).map (fun n => (n : Int))
  | cs => (digitsToNat cs).map (fun n => (n : Int))

/-- Python `value.split('/')`. -/
def splitOnSlash : List Char → List (List Char)
  | [] => [[]]
  | '/' :: rest => [] :: splitOnSlash rest
  | c :: rest =>
    match splitOnSlash rest with
    | h :: t => (c :: h) :: t
    | [] => [[c]]

/-- Decimal digits of a natural number. -/
def natToChars (n : Nat) : List Char := Nat.toDigits 10 n

/-- Decimal representation of an integer. -/
def intToChars : Int → List Char
  | Int.ofNat n => natToChars n
  | Int.negSucc n => '-' :: natToChars (n + 1)

/-- Python `f"{i:02d}"`. -/
def pad2 (i : Int) : List Char :=
  if 0 ≤ i ∧ i < 10 then '0' :: intToChars i else intToChars i

/-- Python `f"{year}-{int(month):02d}-{int(day):02d}"`. -/
def isoDate (year mo day : Int) : List Char :=
  intToChars year ++ '-' :: pad2 mo ++ '-' :: pad2 day

/-- The expression `invoice_year or datetime.now().year` (Python `or` treats
`None` and `0` as falsy). -/
def yearFor (invoice_year : Option Int) (nowYear : Int) : Int :=
  match invoice_year with
  | some y => if y ≠ 0 then y else nowYear
  | none => nowYear

/-- Prefix match of `\d{1,2}/\d{1,2}` (an unanchored `re.match`): one or two
digits, a slash, at least one digit.  Greedy backtracking is forced because
a digit can never serve as the slash. -/
def matchMMDDPrefix (cs : List Char) : Bool :=
  let m := countLeadingDigits cs
  if m = 0 || m > 2 then false
  else
    match cs.drop m with
    | '/' :: r2 => 1 ≤ countLeadingDigits r2
    | _ => false

/-- Prefix match of `\d{1,2}/\d{1,2}/\d{2,4}`. -/
def matchMMDDYYPrefix (cs : List Char) : Bool :=
  let m := countLeadingDigits cs
  if m = 0 || m > 2 then false
  else
    match cs.drop m with
    | '/' :: r2 =>
      let d := countLeadingDigits r2
      if d = 0 || d > 2 then false
      else
        match r2.drop d with
        | '/' :: r3 => 2 ≤ countLeadingDigits r3
        | _ => false
    | _ => false

/-- Anchored match of `\d{1,2}/\d{1,2}$`. -/
def matchMMDDFull (cs : List Char) : Bool :=
  let m := countLeadingDigits cs
  if m = 0 || m > 2 then false
  else
    match cs.drop m with
    | '/' :: r2 =>
      let d := countLeadingDigits r2
      1 ≤ d && d ≤ 2 && r2.length = d
    | _ => false

/-- Anchored match of `\d{1,2}/\d{1,2}/\d{2,4}$`. -/
def matchMMDDYYFull (cs : List Char) : Bool :=
  let m := countLeadingDigits cs
  if m = 0 || m > 2 then false
  else
    match cs.drop m with
    | '/' :: r2 =>
      let d := countLeadingDigits r2
      if d = 0 || d > 2 then false
      else
        match r2.drop d with
        | '/' :: r3 =>
          let y := countLeadingDigits r3
          2 ≤ y && y ≤ 4 && r3.length = y
        | _ => false
    | _ => false

/-- The two- or three-part date assembly shared by both `_parse_date` bodies:
split on `/`, convert the parts, fall back to the stripped raw value when a
conversion raises. -/
def dateFromParts (value : List Char) (invoice_year : Option Int)
    (nowYear : Int) (parts : List (List Char)) : Option (List Char) :=
  match parts with
  | [m, d] =>
    match pyInt m, pyInt d with
    | some mi, some di => some (isoDate (yearFor invoice_year nowYear) mi di)
    | _, _ => some (pyStrip value)
  | _ => some (pyStrip value)

/-- The `MM/DD/YY(YY)` branch body: a two-character year is expanded by
adding 2000 before formatting. -/
def dateFromPartsY (value : List Char) (parts : List (List Char)) :
    Option (List Char) :=
  match parts with
  | [m, d, y] =>
    let yearVal : Option Int :=
      if y.length = 2 then (pyInt y).map (fun n => 2000 + n) else pyInt y
    match pyInt m, pyInt d, yearVal with
    | some mi, some di, some yi => some (isoDate yi mi di)
    | _, _, _ => some (pyStrip value)
  | _ => some (pyStrip value)

/-- Embedding of `_parse_date` from matrix_processor.py (lines 598-622).
Its `re.match(r'\d{1,2}/\d{1,2}', value)` test is an unanchored prefix
match, so a `MM/DD/YY` value also enters the first branch, where the
three-way split fails to unpack and the `except` clause returns the
stripped raw value. -/
def mpParseDate (value : List Char) (invoice_year : Option Int)
    (nowYear : Int) : Option (List Char) :=
  if value = [] then none
  else if matchMMDDPrefix value then
    dateFromParts value invoice_year nowYear (splitOnSlash value)
  else if matchMMDDYYPrefix value then
    dateFromPartsY value (splitOnSlash value)
  else some (pyStrip value)

/-- Embedding of `_parse_date` from ups-invoice-parsing/invoice_parser.py
(lines 519-539), whose two regexes are anchored with `$`. -/
def ipParseDate (value : List Char) (invoice_year : Option Int)
    (nowYear : Int) : Option (List Char) :=
  if value = [] then none
  else if matchMMDDFull value then
    dateFromParts value invoice_year nowYear (splitOnSlash value)
  else if matchMMDDYYFull value then
    dateFromPartsY value (splitOnSlash value)
  else some (pyStrip value)

/-! ## C3 — date coercion in the field extraction engine -/

/-- C3, code bug.  In matrix_processor.py the two-digit-year expansion never
happens: `"08/14/24"` matches the unanchored `\d{1,2}/\d{1,2}` prefix test,
the two-way unpacking of the three-part split raises, and the raw string is
returned — even though the anchored `_parse_date` of
ups-invoice-parsing/invoice_parser.py resolves the same value to
`"2024-08-14"`.  Moreover the extraction engine calls `_parse_date` without
the invoice year (`self._parse_date(groups[0])`), so an `MM/DD` value is
resolved with the ambient clock year, not the invoice's derived year. -/
theorem C3_date_bug :
    mpParseDate ("08/14/24".toList) none 2026 = some ("08/14/24".toList) ∧
    mpParseDate ("08/14/24".toList) (some 2024) 2026 = some ("08/14/24".toList) ∧
    mpParseDate ("08/14".toList) none 2026 = some ("2026-08-14".toList) ∧
    ipParseDate ("08/14/24".toList) none 2026 = some ("2024-08-14".toList) ∧
    mpParseDate ("not a date ".toList) none 2026 = some ("not a date".toList) := by
  refine ⟨?_, ?_, ?_, ?_, ?_⟩ <;> decide

/-! ## C6 — determinism of the pipeline -/

/-- Claim C6 counterexample: the pipeline is not a pure function of the
input text alone — `_parse_date` reads the system clock year when no
invoice year is supplied (which is how matrix_processor.py always calls
it), so the same `MM/DD` value parses differently under different clock
years. -/
theorem C6_counterexample :
    mpParseDate ("08/14".toList) none 2025 ≠ mpParseDate ("08/14".toList) none 2026 := by
  decide

/-- C6, amended.  The only ambient-state dependence of the pipeline is the
date parser's use of the current clock year when no (non-zero) invoice year
is supplied; with an invoice year supplied both `_parse_date`
implementations are independent of the clock, and hence deterministic
functions of the input text. -/
theorem C6_clock_dependence_amended :
    ∀ (value : List Char) (y : Int) (c1 c2 : Int), y ≠ 0 →
      mpParseDate value (some y) c1 = mpParseDate value (some y) c2 ∧
      ipParseDate value (some y) c1 = ipParseDate value (some y) c2 := by
  intro value y c1 c2 hy
  have hyear : ∀ c : Int, yearFor (some y) c = y := by
    intro c
    simp [yearFor, hy]
  have hparts : ∀ c : Int, ∀ parts,
      dateFromParts value (some y) c parts = dateFromParts value (some y) 0 parts := by
    intro c parts
    unfold dateFromParts
    rw [hyear, hyear]
  constructor
  · unfold mpParseDate
    rw [hparts c1, hparts c2]
  · unfold ipParseDate
    rw [hparts c1, hparts c2]

/-- Witness for C6's amended theorem at a concrete date, year and pair of
clock readings. -/
theorem C6_clock_dependence_amended_witness :
    (2024 : Int) ≠ 0 ∧
    mpParseDate ("08/14".toList) (some 2024) 2025
      = mpParseDate ("08/14".toList) (some 2024) 2026 :=
  ⟨by decide,
   (C6_clock_dependence_amended ("08/14".toList) 2024 2025 2026 (by decide)).1⟩

/-! ## The record merger (`merge_direct_fields_with_matrix`, app.py 567-604)

A matrix-extracted record is embedded with its four identity fields, its
merge flag, its identifier and a residual key-value list standing for every
other field; a direct-extraction tuple always carries the five string
fields (possibly empty), as built by `_extract_shipments_from_page`. -/

structure MatrixRec where
  tracking_number : Option String := none
  sender_name : Option String := none
  sender_address : Option String := none
  receiver_name : Option String := none
  receiver_address : Option String := none
  direct_extraction_applied : Option Bool := none
  rest : List (String × String) := []

structure DirectRec where
  tracking_number : String := ""
  sender_name : String := ""
  sender_address : String := ""
  receiver_name : String := ""
  receiver_address : String := ""
  deriving DecidableEq

/-- The `direct_lookup` dict: entries with truthy tracking number, later
entries overwriting earlier ones. -/
def directLookup (ds : List DirectRec) (t : String) : Option DirectRec :=
  ds.foldl
    (fun acc d => if d.tracking_number ≠ "" ∧ d.tracking_number = t then some d else acc)
    none

/-- The per-record body of the merge loop: when the record's tracking number
is truthy and present in the lookup, replace each of the four identity
fields for which the direct data is non-empty and set the flag to `True`;
otherwise set the flag to `False`. -/
def mergeOne (ds : List DirectRec) (s : MatrixRec) : MatrixRec :=
  match s.tracking_number with
  | some t =>
    if t ≠ "" then
      match directLookup ds t with
      | some d =>
        { s with
          sender_name := if d.sender_name ≠ "" then some d.sender_name else s.sender_name,
          sender_address := if d.sender_address ≠ "" then some d.sender_address else s.sender_address,
          receiver_name := if d.receiver_name ≠ "" then some d.receiver_name else s.receiver_name,
          receiver_address := if d.receiver_address ≠ "" then some d.receiver_address else s.receiver_address,
          direct_extraction_applied := some true }
      | none => { s with direct_extraction_applied := some false }
    else { s with direct_extraction_applied := some false }
  | none => { s with direct_extraction_applied := some false }

/-- Embedding of `merge_direct_fields_with_matrix`: the loop mutates each
matrix record in place and returns the same list. -/
def merge_direct_fields_with_matrix (ms : List MatrixRec) (ds : List DirectRec) :
    List MatrixRec :=
  ms.map (mergeOne ds)

theorem mergeOne_miss (ds : List DirectRec) (s : MatrixRec)
    (h : ∀ t, s.tracking_number = some t → t = "" ∨ directLookup ds t = none) :
    mergeOne ds s = { s with direct_extraction_applied := some false } := by
  unfold mergeOne
  cases htn : s.tracking_number with
  | none => rfl
  | some t =>
    by_cases he : t = ""
    · simp [he]
    · have hl := (h t htn).resolve_left he
      simp [he, hl]

theorem mergeOne_hit (ds : List DirectRec) (s : MatrixRec) (t : String)
    (d : DirectRec) (ht : s.tracking_number = some t) (hne : t ≠ "")
    (hd : directLookup ds t = some d) :
    mergeOne ds s =
      { s with
        sender_name := if d.sender_name ≠ "" then some d.sender_name else s.sender_name,
        sender_address := if d.sender_address ≠ "" then some d.sender_address else s.sender_address,
        receiver_name := if d.receiver_name ≠ "" then some d.receiver_name else s.receiver_name,
        receiver_address := if d.receiver_address ≠ "" then some d.receiver_address else s.receiver_address,
        direct_extraction_applied := some true } := by
  unfold mergeOne
  rw [ht]
  simp [hne, hd]

/-! ## C4 — the merger's overwrite and frame conditions -/

/-- C4, confirmed.  Merging preserves the record count, and per record: when
the resolver output has no entry for the record's identifier (including a
missing or empty identifier) the four identity fields are unchanged
bit-for-bit, the record is marked not corrected, and everything else is
unchanged; when an entry exists, exactly those identity fields with a
non-empty resolver value are overwritten, the record is marked corrected,
and the identifier and all residual fields are unchanged. -/
theorem C4_merge_rule :
    ∀ (ds : List DirectRec) (ms : List MatrixRec) (s : MatrixRec),
      (merge_direct_fields_with_matrix ms ds).length = ms.length ∧
      ((∀ t, s.tracking_number = some t → t = "" ∨ directLookup ds t = none) →
        (mergeOne ds s).sender_name = s.sender_name ∧
        (mergeOne ds s).sender_address = s.sender_address ∧
        (mergeOne ds s).receiver_name = s.receiver_name ∧
        (mergeOne ds s).receiver_address = s.receiver_address ∧
        (mergeOne ds s).direct_extraction_applied = some false ∧
        (mergeOne ds s).tracking_number = s.tracking_number ∧
        (mergeOne ds s).rest = s.rest) ∧
      (∀ t d, s.tracking_number = some t → t ≠ "" → directLookup ds t = some d →
        (d.sender_name ≠ "" → (mergeOne ds s).sender_name = some d.sender_name) ∧
        (d.sender_name = "" → (mergeOne ds s).sender_name = s.sender_name) ∧
        (d.sender_address ≠ "" → (mergeOne ds s).sender_address = some d.sender_address) ∧
        (d.sender_address = "" → (mergeOne ds s).sender_address = s.sender_address) ∧
        (d.receiver_name ≠ "" → (mergeOne ds s).receiver_name = some d.receiver_name) ∧
        (d.receiver_name = "" → (mergeOne ds s).receiver_name = s.receiver_name) ∧
        (d.receiver_address ≠ "" → (mergeOne ds s).receiver_address = some d.receiver_address) ∧
        (d.receiver_address = "" → (mergeOne ds s).receiver_address = s.receiver_address) ∧
        (mergeOne ds s).direct_extraction_applied = some true ∧
        (mergeOne ds s).tracking_number = s.tracking_number ∧
        (mergeOne ds s).rest = s.rest) := by
  intro ds ms s
  refine ⟨by simp [merge_direct_fields_with_matrix], fun hmiss => ?_, fun t d ht hne hd => ?_⟩
  · rw [mergeOne_miss ds s hmiss]
    exact ⟨rfl, rfl, rfl, rfl, rfl, rfl, rfl⟩
  · rw [mergeOne_hit ds s t d ht hne hd]
    refine ⟨fun h => ?_, fun h => ?_, fun h => ?_, fun h => ?_, fun h => ?_,
      fun h => ?_, fun h => ?_, fun h => ?_, rfl, rfl, rfl⟩ <;> simp [h]

/-- Witness for C4 at concrete records: one record hit by the lookup
(non-empty sender name overwritten, flag set) and one record missed
(identity fields untouched, flag cleared). -/
theorem C4_merge_rule_witness :
    (mergeOne [{ tracking_number := "1ZAAAAAAAAAAAAAAAA", sender_name := "ACME CO" }]
        { tracking_number := some "1ZAAAAAAAAAAAAAAAA",
          sender_name := some "OLD NAME" }).sender_name = some "ACME CO" ∧
    (mergeOne [{ tracking_number := "1ZAAAAAAAAAAAAAAAA", sender_name := "ACME CO" }]
        { tracking_number := some "1ZBBBBBBBBBBBBBBBB",
          sender_name := some "OLD NAME" }).sender_name = some "OLD NAME" ∧
    (mergeOne [{ tracking_number := "1ZAAAAAAAAAAAAAAAA", sender_name := "ACME CO" }]
        { tracking_number := some "1ZBBBBBBBBBBBBBBBB",
          sender_name := some "OLD NAME" }).direct_extraction_applied = some false := by
  refine ⟨?_, ?_, ?_⟩
  · exact ((C4_merge_rule
      [{ tracking_number := "1ZAAAAAAAAAAAAAAAA", sender_name := "ACME CO" }] []
      { tracking_number := some "1ZAAAAAAAAAAAAAAAA",
        sender_name := some "OLD NAME" }).2.2 "1ZAAAAAAAAAAAAAAAA"
      { tracking_number := "1ZAAAAAAAAAAAAAAAA", sender_name := "ACME CO" }
      rfl (by decide) (by decide)).1 (by decide)
  · exact ((C4_merge_rule
      [{ tracking_number := "1ZAAAAAAAAAAAAAAAA", sender_name := "ACME CO" }] []
      { tracking_number := some "1ZBBBBBBBBBBBBBBBB",
        sender_name := some "OLD NAME" }).2.1
      (by intro t ht; right; cases ht; decide)).1
  · exact ((C4_merge_rule
      [{ tracking_number := "1ZAAAAAAAAAAAAAAAA", sender_name := "ACME CO" }] []
      { tracking_number := some "1ZBBBBBBBBBBBBBBBB",
        sender_name := some "OLD NAME" }).2.1
      (by intro t ht; right; cases ht; decide)).2.2.2.2.1

/-! ## The invoice boundary detector (`extract_invoice_groups`,
text_extractor.py 206-260)

A document is embedded as the list of its page texts (the `page.get_text()`
results); bounding boxes play no role here. -/

/-- Literal prefix test on character lists. -/
def startsWithL : List Char → List Char → Bool
  | [], _ => true
  | _ :: _, [] => false
  | p :: ps, c :: cs => p = c && startsWithL ps cs

/-- Case-insensitive literal prefix test (ASCII lowering, as Python
`re.IGNORECASE` behaves on these ASCII patterns). -/
def startsWithCI : List Char → List Char → Bool
  | [], _ => true
  | _ :: _, [] => false
  | p :: ps, c :: cs => p.toLower = c.toLower && startsWithCI ps cs

/-- Case-sensitive substring test (Python `in`). -/
def containsSub (pat : List Char) : List Char → Bool
  | [] => startsWithL pat []
  | c :: rest => startsWithL pat (c :: rest) || containsSub pat rest

/-- Case-insensitive substring test (`re.search` on a literal pattern with
`re.IGNORECASE`). -/
def containsCI (pat : List Char) : List Char → Bool
  | [] => startsWithCI pat []
  | c :: rest => startsWithCI pat (c :: rest) || containsCI pat rest

/-- Check a positional matcher at every suffix (`re.search` existence). -/
def existsAt (f : List Char → Bool) : List Char → Bool
  | [] => f []
  | c :: rest => f (c :: rest) || existsAt f rest

/-- Consume `\s+`: at least one whitespace character, then greedily all
following whitespace (the next pattern element is never whitespace here, so
no backtracking is possible). -/
def wsPlus : List Char → Option (List Char)
  | c :: rest => if isWS c then some (rest.dropWhile isWS) else none
  | [] => none

/-- Consume a case-insensitive literal, returning the remainder. -/
def stripCI : List Char → List Char → Option (List Char)
  | [], s => some s
  | _ :: _, [] => none
  | p :: ps, c :: cs => if p.toLower = c.toLower then stripCI ps cs else none

/-- Match of `Page\s+1\s+of\s+\d+` (case-insensitive) anchored at the head
of the input. -/
def pageMarkerAt (s : List Char) : Bool :=
  match stripCI ("page".toList) s with
  | none => false
  | some r1 =>
    match wsPlus r1 with
    | none => false
    | some r2 =>
      match r2 with
      | '1' :: r3 =>
        match wsPlus r3 with
        | none => false
        | some r4 =>
          match stripCI ("of".toList) r4 with
          | none => false
          | some r5 =>
            match wsPlus r5 with
            | some (c :: _) => c.isDigit
            | _ => false
      | _ => false

/-- Embedding of `_is_invoice_start_page`: the title phrase together with a
"page 1 of N" marker, both case-insensitive. -/
def isInvoiceStartPage (text : List Char) : Bool :=
  containsCI ("Delivery Service Invoice".toList) text && existsAt pageMarkerAt text

/-- The consolidated-summary deny list of `extract_invoice_groups` (plain
case-sensitive substring tests). -/
def isSummaryPage (text : List Char) : Bool :=
  containsSub ("Consolidated Billing Summary".toList) text ||
    containsSub ("Consolidated Remittance Summary".toList) text

/-! ### Header extraction (`_extract_invoice_header_info`) -/

/-- Leftmost-position search for a positional group extractor. -/
def searchFirst (f : List Char → Option (List Char)) : List Char → Option (List Char)
  | [] => f []
  | c :: rest =>
    match f (c :: rest) with
    | some v => some v
    | none => searchFirst f rest

/-- Character class `[A-Z0-9\-]` under `re.IGNORECASE`. -/
def isAlnumDash (c : Char) : Bool := c.isAlpha || c.isDigit || c = '-'

/-- Character class `[A-Z0-9\-#]` under `re.IGNORECASE`. -/
def isAlnumDashHash (c : Char) : Bool := isAlnumDash c || c = '#'

/-- Group of `<word1>\s+<word2>\s+(<cls>+)` at the head of the input. -/
def labeledTokenAt (w1 w2 : List Char) (cls : Char → Bool) (s : List Char) :
    Option (List Char) :=
  match stripCI w1 s with
  | none => none
  | some r1 =>
    match wsPlus r1 with
    | none => none
    | some r2 =>
      match stripCI w2 r2 with
      | none => none
      | some r3 =>
        match wsPlus r3 with
        | none => none
        | some r4 =>
          let g := r4.takeWhile cls
          if g = [] then none else some g

/-- Group of `Invoice\s+Date\s+([A-Za-z]+\s+\d{1,2},\s+\d{4})` at the head
of the input. -/
def invoiceDateAt (s : List Char) : Option (List Char) :=
  match stripCI ("invoice".toList) s with
  | none => none
  | some r1 =>
    match wsPlus r1 with
    | none => none
    | some r2 =>
      match stripCI ("date".toList) r2 with
      | none => none
      | some r3 =>
        match wsPlus r3 with
        | none => none
        | some r4 =>
          let word := r4.takeWhile Char.isAlpha
          if word = [] then none else
          let r5 := r4.drop word.length
          let ws1 := r5.takeWhile isWS
          if ws1 = [] then none else
          let r6 := r5.drop ws1.length
          let digs := r6.takeWhile Char.isDigit
          if digs.length = 0 || digs.length > 2 then none else
          match r6.drop digs.length with
          | ',' :: r7 =>
            let ws2 := r7.takeWhile isWS
            if ws2 = [] then none else
            let r8 := r7.drop ws2.length
            let year := (r8.takeWhile Char.isDigit).take 4
            if year.length = 4 then
              some (word ++ ws1 ++ digs ++ ',' :: ws2 ++ year)
            else none
          | _ => none

/-- Group of `Shipped\s+from:\s*([^\n]+)` at the head of the input: after
the greedy `\s*`, the group takes the rest of the line; if nothing non-`\n`
follows, the greedy run backtracks onto its own trailing non-`\n`
whitespace. -/
def shippedFromAt (s : List Char) : Option (List Char) :=
  match stripCI ("shipped".toList) s with
  | none => none
  | some r1 =>
    match wsPlus r1 with
    | none => none
    | some r2 =>
      match stripCI ("from:".toList) r2 with
      | none => none
      | some r3 =>
        let rest := r3.dropWhile isWS
        match rest with
        | c :: _ =>
          if c = '\n' then none else some (rest.takeWhile (fun x => x ≠ '\n'))
        | [] =>
          let ws := r3.takeWhile isWS
          match ws.reverse with
          | last :: _ => if last = '\n' then none else some [last]
          | [] => none

/-- Embedding of `_extract_invoice_header_info`: one `(field, pattern)`
entry per key, in dict order, keeping only the matched ones with the group
stripped. -/
def headerInfo (text : List Char) : List (String × List Char) :=
  ([("invoice_number",
      searchFirst (labeledTokenAt ("invoice".toList) ("number".toList) isAlnumDash) text),
    ("account_number",
      searchFirst (labeledTokenAt ("account".toList) ("number".toList) isAlnumDash) text),
    ("control_id",
      searchFirst (labeledTokenAt ("control".toList) ("id".toList) isAlnumDashHash) text),
    ("invoice_date", searchFirst invoiceDateAt text),
    ("shipped_from", searchFirst shippedFromAt text)].filterMap
    (fun p => (p.2.map (fun g => (p.1, pyStrip g)))))

/-- One invoice unit: its header and the page numbers it spans. -/
structure InvoiceGroup where
  invoice_header : List (String × List Char)
  pages : List Nat
  deriving DecidableEq

/-- The page loop of `extract_invoice_groups`, carrying the current group's
header and page list.  `page_range` and `page_count` of the source are
derived views of `pages` and are not stored separately. -/
def groupsLoop : List (List Char) → Nat → Option (List (String × List Char)) →
    List Nat → List InvoiceGroup
  | [], _, cg, cp =>
    match cg with
    | some h => if cp ≠ [] then [⟨h, cp⟩] else []
    | none => []
  | text :: rest, n, cg, cp =>
    if isSummaryPage text then groupsLoop rest (n + 1) cg cp
    else if isInvoiceStartPage text then
      match cg with
      | some h =>
        if cp ≠ [] then ⟨h, cp⟩ :: groupsLoop rest (n + 1) (some (headerInfo text)) [n]
        else groupsLoop rest (n + 1) (some (headerInfo text)) [n]
      | none => groupsLoop rest (n + 1) (some (headerInfo text)) [n]
    else
      match cg with
      | some h => groupsLoop rest (n + 1) (some h) (cp ++ [n])
      | none => groupsLoop rest (n + 1) none cp

/-- Embedding of `extract_invoice_groups`. -/
def extract_invoice_groups (pages : List (List Char)) : List InvoiceGroup :=
  groupsLoop pages 0 none []

/-! ## C10 — no start page means zero invoice units -/

theorem groupsLoop_none (texts : List (List Char)) (n : Nat) (cp : List Nat)
    (h : ∀ t ∈ texts, isInvoiceStartPage t = false) :
    groupsLoop texts n none cp = [] := by
  induction texts generalizing n cp with
  | nil => rfl
  | cons text rest ih =>
    have hhead := h text (List.mem_cons_self text rest)
    have htail : ∀ t ∈ rest, isInvoiceStartPage t = false :=
      fun t ht => h t (List.mem_cons_of_mem text ht)
    unfold groupsLoop
    by_cases hs : isSummaryPage text = true
    · rw [if_pos hs]
      exact ih (n + 1) cp htail
    · rw [if_neg hs, if_neg (by rw [hhead]; exact Bool.false_ne_true)]
      exact ih (n + 1) cp htail

/-- C10, confirmed.  On a document none of whose pages matches the
invoice-start signature (title phrase plus "page 1 of N" marker) — for
example a document of summary pages only — the boundary detector returns
zero invoice units; the embedding is total, so no error is raised. -/
theorem C10_no_start_no_groups :
    ∀ pages : List (List Char),
      (∀ t ∈ pages, isInvoiceStartPage t = false) →
      extract_invoice_groups pages = [] := by
  intro pages h
  exact groupsLoop_none pages 0 [] h

/-- Witness for C10 on a one-page document consisting of a summary page. -/
theorem C10_no_start_no_groups_witness :
    extract_invoice_groups
      [("Consolidated Billing Summary for account 123".toList)] = [] := by
  apply C10_no_start_no_groups
  intro t ht
  rw [List.mem_singleton] at ht
  rw [ht]
  decide

/-! ## Shipment identifiers

The valid-identifier regex `1Z[A-Z0-9]{16}` (tracking_pattern of
invoice_parser.py and the recovery scan of `_post_process_shipment_data`),
always used case-sensitively. -/

/-- Character class `[A-Z0-9]`. -/
def isIdChar (c : Char) : Bool := ('A' ≤ c && c ≤ 'Z') || c.isDigit

/-- Match of `1Z[A-Z0-9]{16}` anchored at the head of the input. -/
def idAt : List Char → Bool
  | c1 :: c2 :: rest =>
    c1 = '1' && c2 = 'Z' && ((rest.take 16).length = 16 && (rest.take 16).all isIdChar)
  | _ => false

/-- Whole-string validity: the string is exactly one identifier match
(`startswith('1Z') and len == 18` with the sixteen-character alphanumeric
body). -/
def isValidId (s : List Char) : Bool := idAt s && s.length = 18

/-- Leftmost `re.search(r'1Z[A-Z0-9]{16}', ...)`, returning the matched
eighteen characters. -/
def searchIdGroup : List Char → Option (List Char)
  | [] => none
  | c :: rest =>
    if idAt (c :: rest) then some ((c :: rest).take 18) else searchIdGroup rest

/-- The tracking-number step of `_post_process_shipment_data`
(matrix_processor.py lines 524-530): when the stored value does not start
with `1Z` or is not 18 characters long, try to recover a valid identifier
substring, else leave the value as extracted. -/
def post_process_tracking (t : List Char) : List Char :=
  if ¬ startsWithL ("1Z".toList) t || t.length ≠ 18 then
    match searchIdGroup t with
    | some m => m
    | none => t
  else t

/-! ### Facts about identifier matches -/

theorem idAt_length {s : List Char} (h : idAt s = true) : 18 ≤ s.length := by
  unfold idAt at h
  split at h
  · rename_i c1 c2 rest
    simp only [Bool.and_eq_true, decide_eq_true_eq] at h
    have h16 : 16 ≤ rest.length := by
      have h1 := h.2.1
      rw [List.length_take] at h1
      omega
    simp only [List.length_cons]
    omega
  · exact absurd h (by simp)

theorem idAt_take18 {s : List Char} (h : idAt s = true) :
    isValidId (s.take 18) = true := by
  unfold idAt at h
  split at h
  · rename_i c1 c2 rest
    simp only [Bool.and_eq_true, decide_eq_true_eq] at h
    obtain ⟨⟨hc1, hc2⟩, hlen, hall⟩ := h
    subst hc1
    subst hc2
    have h16 : 16 ≤ rest.length := by
      rw [List.length_take] at hlen
      omega
    have htake : ('1' :: 'Z' :: rest).take 18 = '1' :: 'Z' :: rest.take 16 := by
      simp
    rw [htake]
    have hid : idAt ('1' :: 'Z' :: rest.take 16) = true := by
      simp [idAt, List.take_take, hlen, hall]
    unfold isValidId
    rw [hid]
    simp only [Bool.true_and, decide_eq_true_eq, List.length_cons, List.length_take]
    omega
  · exact absurd h (by simp)

theorem searchIdGroup_spec {t m : List Char} (h : searchIdGroup t = some m) :
    ∃ p, idAt (t.drop p) = true ∧ m = (t.drop p).take 18 := by
  induction t with
  | nil => simp [searchIdGroup] at h
  | cons c rest ih =>
    unfold searchIdGroup at h
    by_cases hc : idAt (c :: rest) = true
    · rw [if_pos hc] at h
      exact ⟨0, by simpa using hc, by simpa using h.symm⟩
    · rw [if_neg hc] at h
      obtain ⟨p, hp, hm⟩ := ih h
      exact ⟨p + 1, by simpa using hp, by simpa using hm⟩

/-! ## The record filter of `parse_invoice`
(ups-invoice-parsing/invoice_parser.py lines 50-72)

The per-block results of `process_shipment_matrix` are taken as given; the
loop keeps the records whose tracking number is truthy, annotating them
with their one-based matrix index and the processing type. -/

structure ParsedShipment where
  tracking_number : Option (List Char) := none
  matrix_index : Option Nat := none
  processing_type : Option String := none
  fields : List (String × List Char) := []
  deriving DecidableEq

/-- Truthiness of `shipment_data.get('tracking_number')` (the dict itself is
always truthy: it is seeded with every catalog key). -/
def truthyTracking (r : ParsedShipment) : Bool :=
  match r.tracking_number with
  | some t => t ≠ []
  | none => false

/-- The collection loop of `parse_invoice`, with `k` the enumeration index
of the first remaining block. -/
def collectFrom (k : Nat) : List ParsedShipment → List ParsedShipment
  | [] => []
  | r :: rest =>
    if truthyTracking r then
      { r with matrix_index := some (k + 1),
               processing_type := some "Matrix-Based" } :: collectFrom (k + 1) rest
    else collectFrom (k + 1) rest

/-- Embedding of the result collection of `parse_invoice`. -/
def parse_invoice_collect (results : List ParsedShipment) : List ParsedShipment :=
  collectFrom 0 results

theorem collectFrom_cons (k : Nat) (x : ParsedShipment) (rest : List ParsedShipment) :
    collectFrom k (x :: rest) =
      if truthyTracking x then
        { x with matrix_index := some (k + 1),
                 processing_type := some "Matrix-Based" } :: collectFrom (k + 1) rest
      else collectFrom (k + 1) rest := rfl

theorem collectFrom_append (k : Nat) (xs ys : List ParsedShipment) :
    collectFrom k (xs ++ ys) = collectFrom k xs ++ collectFrom (k + xs.length) ys := by
  induction xs generalizing k with
  | nil => simp [collectFrom]
  | cons x rest ih =>
    rw [List.cons_append, collectFrom_cons, collectFrom_cons]
    have he : k + 1 + rest.length = k + (x :: rest).length := by
      simp only [List.length_cons]
      omega
    by_cases hx : truthyTracking x = true
    · rw [if_pos hx, if_pos hx, ih, List.cons_append, he]
    · rw [if_neg hx, if_neg hx, ih, he]

theorem mem_collectFrom {k : Nat} {results : List ParsedShipment}
    {r : ParsedShipment} (h : r ∈ collectFrom k results) :
    truthyTracking r = true := by
  induction results generalizing k with
  | nil => simp [collectFrom] at h
  | cons x rest ih =>
    rw [collectFrom_cons] at h
    by_cases hx : truthyTracking x = true
    · rw [if_pos hx] at h
      rcases List.mem_cons.mp h with hr | hr
      · subst hr
        exact hx
      · exact ih hr
    · rw [if_neg hx] at h
      exact ih h

/-! ## C7 — identifier invariant and block-level misses -/

/-- C7, confirmed.  (1) Every record emitted by `parse_invoice` has a truthy
(present, non-empty) tracking number.  (2) A block whose record carries no
identifier contributes nothing: the output around it is exactly what its
sibling blocks produce, at their own enumeration indices.  (3) Whenever the
source text of the stored value contains a match of the valid-identifier
regex — in particular whenever the block's identifier pattern matched — the
post-processed tracking number is itself a full match of `1Z` plus sixteen
alphanumerics. -/
theorem C7_tracking_invariant :
    (∀ (results : List ParsedShipment) (r : ParsedShipment),
        r ∈ parse_invoice_collect results →
        ∃ t, r.tracking_number = some t ∧ t ≠ []) ∧
    (∀ (k : Nat) (xs ys : List ParsedShipment) (b : ParsedShipment),
        truthyTracking b = false →
        collectFrom k (xs ++ b :: ys) =
          collectFrom k xs ++ collectFrom (k + xs.length + 1) ys) ∧
    (∀ t : List Char, (searchIdGroup t).isSome →
        isValidId (post_process_tracking t) = true) := by
  refine ⟨fun results r hr => ?_, fun k xs ys b hb => ?_, fun t ht => ?_⟩
  · have htr := mem_collectFrom hr
    unfold truthyTracking at htr
    cases hc : r.tracking_number with
    | none => rw [hc] at htr; exact absurd htr (by simp)
    | some t =>
      rw [hc] at htr
      exact ⟨t, rfl, by simpa using htr⟩
  · rw [collectFrom_append, collectFrom_cons]
    rw [if_neg (by rw [hb]; exact Bool.false_ne_true)]
  · obtain ⟨m, hm⟩ := Option.isSome_iff_exists.mp ht
    obtain ⟨p, hp, hmp⟩ := searchIdGroup_spec hm
    unfold post_process_tracking
    by_cases hc : (¬ startsWithL ("1Z".toList) t || t.length ≠ 18) = true
    · rw [if_pos hc, hm]
      rw [hmp] at hm ⊢
      exact idAt_take18 hp
    · rw [if_neg hc]
      have hlen : t.length = 18 := by
        simp only [Bool.or_eq_true, Bool.not_eq_true', decide_eq_true_eq] at hc
        push_neg at hc
        exact hc.2
      have hp0 : p = 0 := by
        have h18 := idAt_length hp
        rw [List.length_drop, hlen] at h18
        omega
      rw [hp0, List.drop_zero] at hp
      rw [isValidId, hp, hlen]
      simp

/-- Witness for C7 at concrete inputs: a two-block result list whose middle
block has no identifier, and a stored tracking value containing a valid
identifier substring. -/
theorem C7_tracking_invariant_witness :
    (∃ t, (({ tracking_number := some ("1ZAAAAAAAAAAAAAAAA".toList),
              matrix_index := some 1,
              processing_type := some "Matrix-Based" } : ParsedShipment)).tracking_number
        = some t ∧ t ≠ []) ∧
    collectFrom 0
        ([({ tracking_number := some ("1ZAAAAAAAAAAAAAAAA".toList) } : ParsedShipment)] ++
          ({ } : ParsedShipment) :: [])
      = collectFrom 0 [({ tracking_number := some ("1ZAAAAAAAAAAAAAAAA".toList) } : ParsedShipment)]
          ++ collectFrom 2 [] ∧
    isValidId (post_process_tracking ("xx1ZAAAAAAAAAAAAAAAA".toList)) = true := by
  refine ⟨?_, ?_, ?_⟩
  · exact (C7_tracking_invariant.1
      [({ tracking_number := some ("1ZAAAAAAAAAAAAAAAA".toList) } : ParsedShipment)]
      { tracking_number := some ("1ZAAAAAAAAAAAAAAAA".toList),
        matrix_index := some 1, processing_type := some "Matrix-Based" }
      (by decide))
  · exact (C7_tracking_invariant.2.1 0
      [({ tracking_number := some ("1ZAAAAAAAAAAAAAAAA".toList) } : ParsedShipment)] []
      ({ } : ParsedShipment) (by decide))
  · exact (C7_tracking_invariant.2.2 ("xx1ZAAAAAAAAAAAAAAAA".toList) (by decide))

/-! ## The shipment segmenter
(`_split_into_enhanced_shipment_matrices`, ups-invoice-parsing/invoice_parser.py
lines 272-356)

The primary boundary pattern is
`(\d{2}/\d{2}(?:/\d{2,4})?)\s+(1Z[A-Z0-9]{16})` compiled without flags; the
alternative patterns and the end markers are searched with `re.IGNORECASE`. -/

/-- Character class `[A-Z0-9]` under `re.IGNORECASE`. -/
def isIdCharCI (c : Char) : Bool := c.isAlpha || c.isDigit

/-- Case-insensitive match of `1Z[A-Z0-9]{16}` at the head of the input. -/
def idAtCI : List Char → Bool
  | c1 :: c2 :: rest =>
    c1 = '1' && (c2 = 'Z' || c2 = 'z') &&
      ((rest.take 16).length = 16 && (rest.take 16).all isIdCharCI)
  | _ => false

/-- Consume `\s+` then the case-sensitive identifier, returning the consumed
length.  The greedy whitespace run cannot backtrack because the identifier
starts with `1`, which is not whitespace. -/
def wsIdLen (s : List Char) : Option Nat :=
  let k := (s.takeWhile isWS).length
  if k = 0 then none
  else if idAt (s.drop k) then some (k + 18) else none

/-- Match length of the primary boundary pattern
`\d{2}/\d{2}(?:/\d{2,4})?\s+1Z[A-Z0-9]{16}` at the head of the input.  The
optional year group is greedy (longest year first, then the group skipped);
a shorter year digit run cannot be followed by a digit, so trying the
lengths in decreasing order realises the backtracking order.
`matchBoundaryTail` handles everything after the leading `\d{2}/\d{2}`
(an empty remainder cannot carry the mandatory `\s+`, hence `none`). -/
def matchBoundaryTail (rest : List Char) : Option Nat :=
  match rest with
  | y :: r2 =>
    if y = '/' then
      let n := (r2.takeWhile Char.isDigit).length
      (if 4 ≤ n then (wsIdLen (r2.drop 4)).map (fun L => 10 + L) else none) <|>
      (if 3 ≤ n then (wsIdLen (r2.drop 3)).map (fun L => 9 + L) else none) <|>
      (if 2 ≤ n then (wsIdLen (r2.drop 2)).map (fun L => 8 + L) else none) <|>
      (wsIdLen (y :: r2)).map (fun L => 5 + L)
    else (wsIdLen (y :: r2)).map (fun L => 5 + L)
  | [] => none

def matchBoundaryLen (s : List Char) : Option Nat :=
  match s with
  | a :: b :: s1 :: c :: d :: rest =>
    if a.isDigit && b.isDigit && s1 = '/' && c.isDigit && d.isDigit then
      matchBoundaryTail rest
    else none
  | _ => none

/-- Non-overlapping scan (`re.finditer`): at each position try the matcher;
on a match record `(position, length)` and continue past the match, else
advance one character.  The fuel is the input length; every pattern used
here consumes at least one character, so the fuel never runs out early. -/
def scanWithFrom (f : List Char → Option Nat) : Nat → List Char → Nat → List (Nat × Nat)
  | 0, _, _ => []
  | _ + 1, [], _ => []
  | fuel + 1, c :: rest, pos =>
    match f (c :: rest) with
    | some L => (pos, L) :: scanWithFrom f fuel ((c :: rest).drop L) (pos + L)
    | none => scanWithFrom f fuel rest (pos + 1)

/-- Scan starting at a given reported position. -/
def scanAt (f : List Char → Option Nat) (s : List Char) (pos : Nat) : List (Nat × Nat) :=
  scanWithFrom f s.length s pos

/-- Scan a whole text. -/
def scanWith (f : List Char → Option Nat) (s : List Char) : List (Nat × Nat) :=
  scanAt f s 0

/-- Match length of the first alternative pattern `(1Z[A-Z0-9]{16})`
(searched case-insensitively). -/
def alt1MatchLen (s : List Char) : Option Nat :=
  if idAtCI s then some 18 else none

/-- First alternative of `(Ground|Air|Express)` matching case-insensitively
at the head, with its length. -/
def serviceWordAt (s : List Char) : Option Nat :=
  if startsWithCI ("ground".toList) s then some 6
  else if startsWithCI ("air".toList) s then some 3
  else if startsWithCI ("express".toList) s then some 7
  else none

/-- Lazy `.*?(Ground|Air|Express)`: the shortest run of non-newline
characters followed by a service word; returns the run length and the word
length. -/
def lazyServiceSearch : List Char → Option (Nat × Nat)
  | [] => none
  | c :: rest =>
    match serviceWordAt (c :: rest) with
    | some w => some (0, w)
    | none =>
      if c = '\n' then none
      else (lazyServiceSearch rest).map (fun p => (p.1 + 1, p.2))

/-- The greedy `\s+` of the second alternative pattern, backtracking from
`j` whitespace characters down to one. -/
def alt2WsLoop (rest : List Char) : Nat → Option Nat
  | 0 => none
  | j + 1 =>
    match lazyServiceSearch (rest.drop (j + 1)) with
    | some p => some (5 + (j + 1) + p.1 + p.2)
    | none => alt2WsLoop rest j

/-- Match length of the second alternative pattern
`(\d{2}/\d{2})\s+.*?(Ground|Air|Express)` (case-insensitive, no DOTALL). -/
def alt2MatchLen (s : List Char) : Option Nat :=
  match s with
  | a :: b :: s1 :: c :: d :: rest =>
    if a.isDigit && b.isDigit && s1 = '/' && c.isDigit && d.isDigit then
      alt2WsLoop rest (rest.takeWhile isWS).length
    else none
  | _ => none

/-- Match length of the third alternative pattern
`(Tracking\s+Number:?\s*1Z[A-Z0-9]{16})` (case-insensitive).  The optional
colon and the greedy whitespace run are deterministic because the
identifier starts with `1`. -/
def alt3MatchLen (s : List Char) : Option Nat :=
  match (stripCI ("tracking".toList) s).bind wsPlus with
  | none => none
  | some r2 =>
    match stripCI ("number".toList) r2 with
    | none => none
    | some r3 =>
      let r4 := match r3 with
        | ':' :: r => r
        | _ => r3
      let r5 := r4.dropWhile isWS
      if idAtCI r5 then some (s.length - (r5.length - 18)) else none

/-- The alternative-pattern fallback of the segmenter: the first alternative
pattern with any match wins. -/
def altBoundaries (text : List Char) : List (Nat × Nat) :=
  let b1 := scanWith alt1MatchLen text
  if b1 ≠ [] then b1
  else
    let b2 := scanWith alt2MatchLen text
    if b2 ≠ [] then b2 else scanWith alt3MatchLen text

/-! ### The end markers, in source order -/

/-- Position match of `Total\s+for\s+Internet[-\s]*ID` (case-insensitive).
The `[-\s]*` run is consumed greedily; `ID` starts with a letter, which the
class excludes, so no backtracking arises. -/
def marker1At (s : List Char) : Bool :=
  (((((stripCI ("total".toList) s).bind wsPlus).bind
      (stripCI ("for".toList))).bind wsPlus).bind
      (stripCI ("internet".toList))).elim false
    (fun r => (stripCI ("id".toList) (r.dropWhile (fun c => c = '-' || isWS c))).isSome)

/-- Position match of `Total\s+Shipping\s+API` (case-insensitive). -/
def marker2At (s : List Char) : Bool :=
  (((((stripCI ("total".toList) s).bind wsPlus).bind
      (stripCI ("shipping".toList))).bind wsPlus).bind
      (stripCI ("api".toList))).isSome

/-- Position match of `Message\s+Codes:` (case-insensitive). -/
def marker3At (s : List Char) : Bool :=
  (((stripCI ("message".toList) s).bind wsPlus).bind
      (stripCI ("codes:".toList))).isSome

/-- Position match of `Page\s+\d+\s+of\s+\d+` (case-insensitive). -/
def marker4At (s : List Char) : Bool :=
  match (stripCI ("page".toList) s).bind wsPlus with
  | none => false
  | some r2 =>
    let d1 := r2.takeWhile Char.isDigit
    if d1 = [] then false
    else
      match wsPlus (r2.drop d1.length) with
      | none => false
      | some r3 =>
        match (stripCI ("of".toList) r3).bind wsPlus with
        | some (c :: _) => c.isDigit
        | _ => false

/-- Position match of `=== (?:INVOICE|END)` (case-insensitive). -/
def marker5At (s : List Char) : Bool :=
  startsWithCI ("=== invoice".toList) s || startsWithCI ("=== end".toList) s

/-- Position match of `Consolidated\s+(?:Billing|Remittance)`
(case-insensitive). -/
def marker6At (s : List Char) : Bool :=
  ((stripCI ("consolidated".toList) s).bind wsPlus).elim false
    (fun r => (stripCI ("billing".toList) r).isSome ||
      (stripCI ("remittance".toList) r).isSome)

/-- Position match of `Invoice\s+Messaging` (case-insensitive). -/
def marker7At (s : List Char) : Bool :=
  (((stripCI ("invoice".toList) s).bind wsPlus).bind
      (stripCI ("messaging".toList))).isSome

/-- Position match of `Code\s+Message` (case-insensitive). -/
def marker8At (s : List Char) : Bool :=
  (((stripCI ("code".toList) s).bind wsPlus).bind
      (stripCI ("message".toList))).isSome

/-- Position match of the next-shipment marker
`\d{2}/\d{2}\s+1Z[A-Z0-9]{16}`; searched with `re.IGNORECASE`, so the
identifier is matched case-insensitively here. -/
def marker9At (s : List Char) : Bool :=
  match s with
  | a :: b :: s1 :: c :: d :: rest =>
    a.isDigit && b.isDigit && s1 = '/' && c.isDigit && d.isDigit &&
      (match wsPlus rest with
       | some r => idAtCI r
       | none => false)
  | _ => false

/-- The `end_markers` list, in source order. -/
def endMarkers : List (List Char → Bool) :=
  [marker1At, marker2At, marker3At, marker4At, marker5At, marker6At,
   marker7At, marker8At, marker9At]

/-- Leftmost position at which a positional matcher holds (`re.search`
start). -/
def findFirstPosFrom (f : List Char → Bool) : List Char → Nat → Option Nat
  | [], n => if f [] then some n else none
  | c :: rest, n =>
    if f (c :: rest) then some n else findFirstPosFrom f rest (n + 1)

def findFirstPos (f : List Char → Bool) (s : List Char) : Option Nat :=
  findFirstPosFrom f s 0

/-- The end-marker loop of the segmenter's last block: markers are tried in
list order; the first whose earliest occurrence lies more than 50
characters past the block start wins, else the text end is used. -/
def endMarkerLoop (tail : List Char) (start dflt : Nat) :
    List (List Char → Bool) → Nat
  | [] => dflt
  | m :: ms =>
    match findFirstPos m tail with
    | some p => if 50 < p then start + p else endMarkerLoop tail start dflt ms
    | none => endMarkerLoop tail start dflt ms

def endMarkerEnd (text : List Char) (start : Nat) : Nat :=
  endMarkerLoop (text.drop start) start text.length endMarkers

/-- The matrix-building loop: each boundary starts a block; a block ends at
the next boundary's start, the last block at the end-marker position; the
stripped block is kept only when it is at least 50 characters long. -/
def buildMatrices (text : List Char) : List (Nat × Nat) → List (List Char)
  | [] => []
  | (start, _) :: rest =>
    let stop :=
      match rest with
      | (next, _) :: _ => next
      | [] => endMarkerEnd text start
    let m := pyStrip ((text.drop start).take (stop - start))
    if m.length < 50 then buildMatrices text rest else m :: buildMatrices text rest

/-- Embedding of `_split_into_enhanced_shipment_matrices`, returning each
matrix's text. -/
def splitMatrices (text : List Char) : List (List Char) :=
  let bs := scanWith matchBoundaryLen text
  buildMatrices text (if bs = [] then altBoundaries text else bs)

/-- Occurrence positions of the identifier pattern in a text
(case-sensitive, non-overlapping). -/
def idMatchLen (s : List Char) : Option Nat :=
  if idAt s then some 18 else none

def idOccurrences (s : List Char) : List Nat :=
  (scanWith idMatchLen s).map Prod.fst

/-! ### Generic facts about the non-overlapping scanner -/

theorem orElse_eq_some {a b : Option Nat} {L : Nat} (h : (a <|> b) = some L) :
    a = some L ∨ b = some L := by
  cases a with
  | none => right; simpa using h
  | some x => left; simpa using h

theorem map_add_le {o : Option Nat} {C L : Nat}
    (h : o.map (fun x => C + x) = some L) : C ≤ L := by
  cases o with
  | none => simp at h
  | some a =>
    have h2 : some (C + a) = some L := h
    injection h2 with h3
    omega

theorem matchBoundaryTail_pos : ∀ r L, matchBoundaryTail r = some L → 1 ≤ L := by
  intro r L h
  unfold matchBoundaryTail at h
  split at h
  · split at h
    · rcases orElse_eq_some h with h1 | h1
      · split at h1
        · have := map_add_le h1; omega
        · simp at h1
      rcases orElse_eq_some h1 with h2 | h2
      · split at h2
        · have := map_add_le h2; omega
        · simp at h2
      rcases orElse_eq_some h2 with h3 | h3
      · split at h3
        · have := map_add_le h3; omega
        · simp at h3
      · have := map_add_le h3; omega
    · have := map_add_le h; omega
  · simp at h

theorem matchBoundaryLen_pos : ∀ s L, matchBoundaryLen s = some L → 1 ≤ L := by
  intro s L h
  unfold matchBoundaryLen at h
  split at h
  · split at h
    · exact matchBoundaryTail_pos _ _ h
    · simp at h
  · simp at h

theorem idMatchLen_pos : ∀ s L, idMatchLen s = some L → 1 ≤ L := by
  intro s L h
  unfold idMatchLen at h
  split at h
  · injection h with h2
    omega
  · simp at h

theorem scanWithFrom_congr (f : List Char → Option Nat)
    (hL : ∀ t L, f t = some L → 1 ≤ L) :
    ∀ (n : Nat) (s : List Char) (fuel1 fuel2 pos : Nat),
      s.length ≤ n → s.length ≤ fuel1 → s.length ≤ fuel2 →
      scanWithFrom f fuel1 s pos = scanWithFrom f fuel2 s pos := by
  intro n
  induction n with
  | zero =>
    intro s f1 f2 pos h0 _ _
    have hs : s = [] := List.length_eq_zero.mp (Nat.le_zero.mp h0)
    subst hs
    cases f1 <;> cases f2 <;> rfl
  | succ n ih =>
    intro s f1 f2 pos hs h1 h2
    cases s with
    | nil => cases f1 <;> cases f2 <;> rfl
    | cons c rest =>
      have hl1 : rest.length + 1 ≤ f1 := by simpa using h1
      have hl2 : rest.length + 1 ≤ f2 := by simpa using h2
      obtain ⟨f1p, rfl⟩ : ∃ k, f1 = k + 1 := ⟨f1 - 1, by omega⟩
      obtain ⟨f2p, rfl⟩ : ∃ k, f2 = k + 1 := ⟨f2 - 1, by omega⟩
      show scanWithFrom f (f1p + 1) (c :: rest) pos
        = scanWithFrom f (f2p + 1) (c :: rest) pos
      unfold scanWithFrom
      cases hfc : f (c :: rest) with
      | some L =>
        have hL1 := hL _ _ hfc
        have hdl : ((c :: rest).drop L).length = rest.length + 1 - L := by
          simp [List.length_drop]
        show (pos, L) :: scanWithFrom f f1p ((c :: rest).drop L) (pos + L)
          = (pos, L) :: scanWithFrom f f2p ((c :: rest).drop L) (pos + L)
        congr 1
        apply ih
        · rw [hdl]
          simp only [List.length_cons] at hs
          omega
        · rw [hdl]; omega
        · rw [hdl]; omega
      | none =>
        show scanWithFrom f f1p rest (pos + 1) = scanWithFrom f f2p rest (pos + 1)
        apply ih
        · simp only [List.length_cons] at hs
          omega
        · omega
        · omega

theorem scanAt_cons_none (f : List Char → Option Nat) {c : Char}
    {rest : List Char} (pos : Nat) (h : f (c :: rest) = none) :
    scanAt f (c :: rest) pos = scanAt f rest (pos + 1) := by
  have he : scanAt f (c :: rest) pos
      = scanWithFrom f (rest.length + 1) (c :: rest) pos := rfl
  rw [he]
  unfold scanWithFrom
  simp only [h]
  rfl

theorem scanAt_cons_some (f : List Char → Option Nat)
    (hL : ∀ t L, f t = some L → 1 ≤ L) {s : List Char} {L : Nat} (pos : Nat)
    (h : f s = some L) (hs : s ≠ []) :
    scanAt f s pos = (pos, L) :: scanAt f (s.drop L) (pos + L) := by
  obtain ⟨c, rest, rfl⟩ := List.exists_cons_of_ne_nil hs
  have he : scanAt f (c :: rest) pos
      = scanWithFrom f (rest.length + 1) (c :: rest) pos := rfl
  rw [he]
  unfold scanWithFrom
  simp only [h]
  congr 1
  show scanWithFrom f rest.length ((c :: rest).drop L) (pos + L)
    = scanWithFrom f ((c :: rest).drop L).length ((c :: rest).drop L) (pos + L)
  apply scanWithFrom_congr f hL ((c :: rest).drop L).length
  · exact le_rfl
  · have hL1 := hL _ _ h
    simp only [List.length_drop, List.length_cons]
    omega
  · exact le_rfl

theorem scanAt_skip (f : List Char → Option Nat) (l rest : List Char)
    (pos : Nat) (h : ∀ c ∈ l, ∀ tail, f (c :: tail) = none) :
    scanAt f (l ++ rest) pos = scanAt f rest (pos + l.length) := by
  induction l generalizing pos with
  | nil => simp
  | cons c l2 ih =>
    rw [List.cons_append,
      scanAt_cons_none f pos (h c (List.mem_cons_self c l2) (l2 ++ rest)),
      ih (pos + 1) (fun x hx tail => h x (List.mem_cons_of_mem c hx) tail)]
    have harith : pos + 1 + l2.length = pos + (c :: l2).length := by
      simp only [List.length_cons]
      omega
    rw [harith]

/-! ### A family of well-formed invoice texts

The segmenter claim quantifies over texts made of well-formed shipment
blocks: each starts with a date `DD/DD`, one space and a shipment
identifier, followed by filler body text of length at least 26 ending in a
non-whitespace character.  The restricted alphabets ensure that every
boundary-pattern, identifier and end-marker occurrence in the text is
accounted for. -/

def digitChars : List Char := ['0', '1', '2', '3', '4', '5', '6', '7', '8', '9']

def bodyChars : List Char :=
  ['A', 'B', '0', '1', '2', '3', '4', '5', '6', '7', '8', '9']

def fillerChars : List Char := ['x', ' ']

structure ShipBlock where
  d1 : Char
  d2 : Char
  d3 : Char
  d4 : Char
  idBody : List Char
  filler : List Char

/-- The text of one block: `DD/DD 1Z<idBody><filler>`. -/
def blockText (b : ShipBlock) : List Char :=
  b.d1 :: b.d2 :: '/' :: b.d3 :: b.d4 :: ' ' :: '1' :: 'Z' :: (b.idBody ++ b.filler)

def WFBlock (b : ShipBlock) : Prop :=
  b.d1 ∈ digitChars ∧ b.d2 ∈ digitChars ∧ b.d3 ∈ digitChars ∧ b.d4 ∈ digitChars ∧
  b.idBody.length = 16 ∧ (∀ c ∈ b.idBody, c ∈ bodyChars) ∧
  (∀ c ∈ b.filler, c ∈ fillerChars) ∧ 26 ≤ b.filler.length ∧
  b.filler.getLast? = some 'x'

instance (b : ShipBlock) : Decidable (WFBlock b) := by
  unfold WFBlock
  infer_instance

def mkInvoiceText (blocks : List ShipBlock) : List Char :=
  (blocks.map blockText).flatten

/-- The boundary list the primary scan produces on such a text: one
24-character match at the start of each block. -/
def boundariesSpec : List ShipBlock → Nat → List (Nat × Nat)
  | [], _ => []
  | b :: bs, pos => (pos, 24) :: boundariesSpec bs (pos + (blockText b).length)

/-! ### Character-level facts -/

theorem digit_isDigit {c : Char} (h : c ∈ digitChars) : c.isDigit = true := by
  fin_cases h <;> decide

theorem body_isIdChar {c : Char} (h : c ∈ bodyChars) : isIdChar c = true := by
  fin_cases h <;> decide

theorem body_isIdCharCI {c : Char} (h : c ∈ bodyChars) : isIdCharCI c = true := by
  fin_cases h <;> decide

theorem filler_not_digit {c : Char} (h : c ∈ fillerChars) : c.isDigit = false := by
  fin_cases h <;> decide

theorem filler_ne_one {c : Char} (h : c ∈ fillerChars) : (c = '1') = False := by
  fin_cases h <;> simp

theorem digit_ne_Z {c : Char} (h : c ∈ digitChars) : (c = 'Z') = False := by
  fin_cases h <;> simp

theorem mem_blockCharSet {b : ShipBlock} (hb : WFBlock b) {c : Char}
    (hc : c ∈ blockText b) :
    c ∈ digitChars ∨ c = '/' ∨ c = ' ' ∨ c = '1' ∨ c = 'Z' ∨ c ∈ bodyChars ∨
      c ∈ fillerChars := by
  obtain ⟨h1, h2, h3, h4, _, hbody, hfill, _, _⟩ := hb
  simp only [blockText, List.mem_cons, List.mem_append] at hc
  rcases hc with rfl | rfl | rfl | rfl | rfl | rfl | rfl | rfl | hc | hc
  · exact Or.inl h1
  · exact Or.inl h2
  · exact Or.inr (Or.inl rfl)
  · exact Or.inl h3
  · exact Or.inl h4
  · exact Or.inr (Or.inr (Or.inl rfl))
  · exact Or.inr (Or.inr (Or.inr (Or.inl rfl)))
  · exact Or.inr (Or.inr (Or.inr (Or.inr (Or.inl rfl))))
  · exact Or.inr (Or.inr (Or.inr (Or.inr (Or.inr (Or.inl (hbody c hc))))))
  · exact Or.inr (Or.inr (Or.inr (Or.inr (Or.inr (Or.inr (hfill c hc))))))

/-! ### The primary scan on a well-formed text -/

theorem blockText_length {b : ShipBlock} (hb : WFBlock b) :
    (blockText b).length = 24 + b.filler.length := by
  have h16 := hb.2.2.2.2.1
  simp only [blockText, List.length_cons, List.length_append, h16]
  omega

theorem matchBoundary_at_block (b : ShipBlock) (rest : List Char)
    (hb : WFBlock b) :
    matchBoundaryLen (blockText b ++ rest) = some 24 := by
  obtain ⟨h1, h2, h3, h4, h16, hbody, _, _, _⟩ := hb
  show matchBoundaryLen
    (b.d1 :: b.d2 :: '/' :: b.d3 :: b.d4 ::
      (' ' :: '1' :: 'Z' :: (b.idBody ++ b.filler) ++ rest)) = some 24
  simp only [matchBoundaryLen]
  rw [if_pos (by
    simp [digit_isDigit h1, digit_isDigit h2, digit_isDigit h3, digit_isDigit h4])]
  have htail : matchBoundaryTail (' ' :: '1' :: 'Z' :: (b.idBody ++ b.filler) ++ rest)
      = Option.map (fun L => 5 + L)
          (wsIdLen (' ' :: '1' :: 'Z' :: (b.idBody ++ b.filler) ++ rest)) := rfl
  rw [htail]
  have hws : ((' ' :: '1' :: 'Z' :: (b.idBody ++ b.filler) ++ rest).takeWhile isWS)
      = [' '] := by
    simp [List.takeWhile, isWS]
  have hid : idAt ((' ' :: '1' :: 'Z' :: (b.idBody ++ b.filler) ++ rest).drop 1)
      = true := by
    show idAt ('1' :: 'Z' :: (b.idBody ++ b.filler ++ rest)) = true
    have htk : (b.idBody ++ b.filler ++ rest).take 16 = b.idBody := by
      rw [List.append_assoc, ← h16, List.take_left]
    have hall : b.idBody.all isIdChar = true := by
      rw [List.all_eq_true]
      intro c hc
      exact body_isIdChar (hbody c hc)
    simp [idAt, htk, h16, hall]
  unfold wsIdLen
  rw [hws]
  simp only [List.length_cons, List.length_nil]
  rw [if_neg (by omega), if_pos hid]
  rfl

theorem matchBoundaryLen_none_head {c : Char} (s : List Char)
    (h : c.isDigit = false) : matchBoundaryLen (c :: s) = none := by
  unfold matchBoundaryLen
  split
  · rename_i a b2 s1 c2 d rest heq
    injection heq with e1 e2
    subst e1
    rw [if_neg (by simp [h])]
  · rfl

theorem scanAt_mkText :
    ∀ blocks : List ShipBlock, (∀ b ∈ blocks, WFBlock b) → ∀ pos : Nat,
      scanAt matchBoundaryLen (mkInvoiceText blocks) pos = boundariesSpec blocks pos := by
  intro blocks
  induction blocks with
  | nil => intro _ pos; rfl
  | cons b bs ih =>
    intro h pos
    have hb := h b (List.mem_cons_self b bs)
    have hbs : ∀ x ∈ bs, WFBlock x := fun x hx => h x (List.mem_cons_of_mem b hx)
    have hjoin : mkInvoiceText (b :: bs) = blockText b ++ mkInvoiceText bs := by
      simp [mkInvoiceText]
    rw [hjoin]
    rw [scanAt_cons_some matchBoundaryLen matchBoundaryLen_pos pos
      (matchBoundary_at_block b (mkInvoiceText bs) hb)
      (by simp [blockText])]
    have h16 := hb.2.2.2.2.1
    have hdrop : (blockText b ++ mkInvoiceText bs).drop 24
        = b.filler ++ mkInvoiceText bs := by
      have hstep : (blockText b ++ mkInvoiceText bs).drop 24
          = ((b.idBody ++ b.filler) ++ mkInvoiceText bs).drop 16 := rfl
      rw [hstep, List.append_assoc, ← h16, List.drop_left]
    rw [hdrop]
    rw [scanAt_skip matchBoundaryLen b.filler (mkInvoiceText bs) (pos + 24)
      (fun c hc tail =>
        matchBoundaryLen_none_head tail (filler_not_digit (hb.2.2.2.2.2.2.1 c hc)))]
    rw [ih hbs (pos + 24 + b.filler.length)]
    show _ = (pos, 24) :: boundariesSpec bs (pos + (blockText b).length)
    rw [blockText_length hb]
    have harith : pos + 24 + b.filler.length = pos + (24 + b.filler.length) := by
      omega
    rw [harith]

/-! ### No end marker fires inside a well-formed block -/

theorem digit_not_ws {c : Char} (h : c ∈ digitChars) : isWS c = false := by
  fin_cases h <;> decide

theorem blockChar_safe {b : ShipBlock} (hb : WFBlock b) {c : Char}
    (hc : c ∈ blockText b) :
    c.toLower ∉ (['t', 'm', 'p', '=', 'c', 'i'] : List Char) := by
  rcases mem_blockCharSet hb hc with h | h | h | h | h | h | h
  · fin_cases h <;> decide
  · subst h; decide
  · subst h; decide
  · subst h; decide
  · subst h; decide
  · fin_cases h <;> decide
  · fin_cases h <;> decide

/-- All of the textual end markers (markers 1 to 8) need a position whose
first character lowers to t, m, p, the equals sign, c or i; at any other
character they fail. -/
theorem markers_head_false {c : Char} (s : List Char)
    (h : c.toLower ∉ (['t', 'm', 'p', '=', 'c', 'i'] : List Char)) :
    marker1At (c :: s) = false ∧ marker2At (c :: s) = false ∧
    marker3At (c :: s) = false ∧ marker4At (c :: s) = false ∧
    marker5At (c :: s) = false ∧ marker6At (c :: s) = false ∧
    marker7At (c :: s) = false ∧ marker8At (c :: s) = false := by
  simp only [List.mem_cons, List.mem_singleton] at h
  push_neg at h
  obtain ⟨ht, hm, hp, he, hcc, hi, -⟩ := h
  have st : stripCI (['t', 'o', 't', 'a', 'l'] : List Char) (c :: s) = none := by
    simp only [stripCI]
    rw [if_neg (fun e => ht e.symm)]
  have sm : stripCI (['m', 'e', 's', 's', 'a', 'g', 'e'] : List Char) (c :: s)
      = none := by
    simp only [stripCI]
    rw [if_neg (fun e => hm e.symm)]
  have sp : stripCI (['p', 'a', 'g', 'e'] : List Char) (c :: s) = none := by
    simp only [stripCI]
    rw [if_neg (fun e => hp e.symm)]
  have sc : stripCI (['c', 'o', 'n', 's', 'o', 'l', 'i', 'd', 'a', 't', 'e', 'd'] :
      List Char) (c :: s) = none := by
    simp only [stripCI]
    rw [if_neg (fun e => hcc e.symm)]
  have si : stripCI (['i', 'n', 'v', 'o', 'i', 'c', 'e'] : List Char) (c :: s)
      = none := by
    simp only [stripCI]
    rw [if_neg (fun e => hi e.symm)]
  have sd : stripCI (['c', 'o', 'd', 'e'] : List Char) (c :: s) = none := by
    simp only [stripCI]
    rw [if_neg (fun e => hcc e.symm)]
  have sw1 : startsWithCI (['=', '=', '=', ' ', 'i', 'n', 'v', 'o', 'i', 'c', 'e'] :
      List Char) (c :: s) = false := by
    simp only [startsWithCI]
    rw [decide_eq_false (fun e => he e.symm), Bool.false_and]
  have sw2 : startsWithCI (['=', '=', '=', ' ', 'e', 'n', 'd'] : List Char) (c :: s)
      = false := by
    simp only [startsWithCI]
    rw [decide_eq_false (fun e => he e.symm), Bool.false_and]
  refine ⟨?_, ?_, ?_, ?_, ?_, ?_, ?_, ?_⟩
  · simp [marker1At, st]
  · simp [marker2At, st]
  · simp [marker3At, sm]
  · simp [marker4At, sp]
  · simp [marker5At, sw1, sw2]
  · simp [marker6At, sc]
  · simp [marker7At, si]
  · simp [marker8At, sd]

theorem markers18_none_suffix {b : ShipBlock} (hb : WFBlock b) :
    ∀ t : List Char, t <:+ blockText b →
      marker1At t = false ∧ marker2At t = false ∧
      marker3At t = false ∧ marker4At t = false ∧
      marker5At t = false ∧ marker6At t = false ∧
      marker7At t = false ∧ marker8At t = false := by
  intro t ht
  cases t with
  | nil => decide
  | cons c tail =>
    exact markers_head_false tail
      (blockChar_safe hb (ht.subset (List.mem_cons_self c tail)))

theorem findFirstPosFrom_none (f : List Char → Bool) :
    ∀ s : List Char, (∀ t : List Char, t <:+ s → f t = false) →
      ∀ n, findFirstPosFrom f s n = none := by
  intro s
  induction s with
  | nil =>
    intro h n
    simp [findFirstPosFrom, h [] List.nil_suffix]
  | cons c rest ih =>
    intro h n
    have hc : f (c :: rest) = false := h (c :: rest) (List.suffix_refl _)
    simp only [findFirstPosFrom, hc]
    exact ih (fun t hts => h t (hts.trans (List.suffix_cons c rest))) (n + 1)

/-- The next-shipment marker (marker 9) fires at the very start of a
well-formed block. -/
theorem marker9At_block {b : ShipBlock} (hb : WFBlock b) :
    marker9At (blockText b) = true := by
  obtain ⟨h1, h2, h3, h4, h16, hbody, _, _, _⟩ := hb
  show marker9At (b.d1 :: b.d2 :: '/' :: b.d3 :: b.d4 ::
    (' ' :: '1' :: 'Z' :: (b.idBody ++ b.filler))) = true
  have hw : wsPlus (' ' :: '1' :: 'Z' :: (b.idBody ++ b.filler))
      = some ('1' :: 'Z' :: (b.idBody ++ b.filler)) := rfl
  have htk : (b.idBody ++ b.filler).take 16 = b.idBody := by
    rw [← h16, List.take_left]
  have hall : b.idBody.all isIdCharCI = true := by
    rw [List.all_eq_true]
    intro c hc
    exact body_isIdCharCI (hbody c hc)
  simp [marker9At, hw, idAtCI, htk, h16, hall,
    digit_isDigit h1, digit_isDigit h2, digit_isDigit h3, digit_isDigit h4]

theorem findFirstPos_marker9_block {b : ShipBlock} (hb : WFBlock b) :
    findFirstPos marker9At (blockText b) = some 0 := by
  have he : blockText b = b.d1 :: (b.d2 :: '/' :: b.d3 :: b.d4 ::
      ' ' :: '1' :: 'Z' :: (b.idBody ++ b.filler)) := rfl
  unfold findFirstPos
  rw [he]
  simp only [findFirstPosFrom]
  rw [show marker9At (b.d1 :: b.d2 :: '/' :: b.d3 :: b.d4 ::
    ' ' :: '1' :: 'Z' :: (b.idBody ++ b.filler)) = true from marker9At_block hb]
  simp

/-- On a text whose tail from `start` is exactly one well-formed block, the
end-marker loop falls through every marker (markers 1 to 8 never occur and
marker 9 occurs at offset 0, inside the 50-character grace window) and the
block runs to the end of the text. -/
theorem endMarkerEnd_block (text : List Char) (start : Nat) {b : ShipBlock}
    (hb : WFBlock b) (hdrop : text.drop start = blockText b) :
    endMarkerEnd text start = text.length := by
  have hall := markers18_none_suffix hb
  have f1 : findFirstPos marker1At (blockText b) = none :=
    findFirstPosFrom_none _ _ (fun t ht => (hall t ht).1) 0
  have f2 : findFirstPos marker2At (blockText b) = none :=
    findFirstPosFrom_none _ _ (fun t ht => (hall t ht).2.1) 0
  have f3 : findFirstPos marker3At (blockText b) = none :=
    findFirstPosFrom_none _ _ (fun t ht => (hall t ht).2.2.1) 0
  have f4 : findFirstPos marker4At (blockText b) = none :=
    findFirstPosFrom_none _ _ (fun t ht => (hall t ht).2.2.2.1) 0
  have f5 : findFirstPos marker5At (blockText b) = none :=
    findFirstPosFrom_none _ _ (fun t ht => (hall t ht).2.2.2.2.1) 0
  have f6 : findFirstPos marker6At (blockText b) = none :=
    findFirstPosFrom_none _ _ (fun t ht => (hall t ht).2.2.2.2.2.1) 0
  have f7 : findFirstPos marker7At (blockText b) = none :=
    findFirstPosFrom_none _ _ (fun t ht => (hall t ht).2.2.2.2.2.2.1) 0
  have f8 : findFirstPos marker8At (blockText b) = none :=
    findFirstPosFrom_none _ _ (fun t ht => (hall t ht).2.2.2.2.2.2.2) 0
  unfold endMarkerEnd
  rw [hdrop]
  simp only [endMarkers, endMarkerLoop, f1, f2, f3, f4, f5, f6, f7, f8,
    findFirstPos_marker9_block hb]
  simp

/-! ### A well-formed block is already stripped and survives the
length threshold -/

theorem pyStrip_block {b : ShipBlock} (hb : WFBlock b) :
    pyStrip (blockText b) = blockText b := by
  obtain ⟨h1, _, _, _, _, _, _, hlen, hlast⟩ := hb
  have hfne : b.filler ≠ [] := by
    intro h
    rw [h] at hlen
    simp at hlen
  have hd : (blockText b).dropWhile isWS = blockText b := by
    show (b.d1 :: (b.d2 :: '/' :: b.d3 :: b.d4 ::
      ' ' :: '1' :: 'Z' :: (b.idBody ++ b.filler))).dropWhile isWS = _
    simp only [List.dropWhile, digit_not_ws h1]
    rfl
  have hsplit : blockText b
      = [b.d1, b.d2, '/', b.d3, b.d4, ' ', '1', 'Z'] ++ b.idBody ++ b.filler := by
    simp [blockText]
  have hlast9 : (blockText b).getLast? = some 'x' := by
    rw [hsplit, List.getLast?_append_of_ne_nil _ hfne, hlast]
  have hrev : (blockText b).reverse.dropWhile isWS = (blockText b).reverse := by
    cases hr : (blockText b).reverse with
    | nil => rfl
    | cons c tl =>
      have hh : (blockText b).reverse.head? = some 'x' := by
        rw [List.head?_reverse]
        exact hlast9
      rw [hr] at hh
      have hc : c = 'x' := by simpa using hh
      subst hc
      simp [List.dropWhile, isWS]
  unfold pyStrip
  rw [hd, hrev, List.reverse_reverse]

/-! ### The matrix builder on a well-formed text -/

theorem mkInvoiceText_cons (b : ShipBlock) (bs : List ShipBlock) :
    mkInvoiceText (b :: bs) = blockText b ++ mkInvoiceText bs := by
  simp [mkInvoiceText]

theorem buildMatrices_single (text : List Char) (start L : Nat) :
    buildMatrices text [(start, L)]
      = if (pyStrip ((text.drop start).take (endMarkerEnd text start - start))).length < 50
        then []
        else [pyStrip ((text.drop start).take (endMarkerEnd text start - start))] := rfl

theorem buildMatrices_cons2 (text : List Char) (start L next L2 : Nat)
    (rest : List (Nat × Nat)) :
    buildMatrices text ((start, L) :: (next, L2) :: rest)
      = if (pyStrip ((text.drop start).take (next - start))).length < 50
        then buildMatrices text ((next, L2) :: rest)
        else pyStrip ((text.drop start).take (next - start))
          :: buildMatrices text ((next, L2) :: rest) := rfl

theorem buildMatrices_spec :
    ∀ (blocks : List ShipBlock) (pre : List Char), (∀ b ∈ blocks, WFBlock b) →
      buildMatrices (pre ++ mkInvoiceText blocks) (boundariesSpec blocks pre.length)
        = blocks.map blockText := by
  intro blocks
  induction blocks with
  | nil => intro pre _; rfl
  | cons b bs ih =>
    intro pre h
    have hb := h b (List.mem_cons_self b bs)
    have hbs : ∀ x ∈ bs, WFBlock x := fun x hx => h x (List.mem_cons_of_mem b hx)
    have h50 : ¬ ((blockText b).length < 50) := by
      rw [blockText_length hb]
      have := hb.2.2.2.2.2.2.2.1
      omega
    cases bs with
    | nil =>
      have hmk : mkInvoiceText [b] = blockText b := by simp [mkInvoiceText]
      have hdrop : (pre ++ mkInvoiceText [b]).drop pre.length = blockText b := by
        rw [List.drop_left, hmk]
      have hend : endMarkerEnd (pre ++ mkInvoiceText [b]) pre.length
          = (pre ++ mkInvoiceText [b]).length := endMarkerEnd_block _ _ hb hdrop
      show buildMatrices (pre ++ mkInvoiceText [b]) [(pre.length, 24)] = [blockText b]
      rw [buildMatrices_single, hend, hdrop]
      have htake : (blockText b).take ((pre ++ mkInvoiceText [b]).length - pre.length)
          = blockText b := by
        apply List.take_of_length_le
        rw [List.length_append, hmk]
        omega
      rw [htake, pyStrip_block hb, if_neg h50]
    | cons b2 bs2 =>
      have htext : pre ++ mkInvoiceText (b :: b2 :: bs2)
          = (pre ++ blockText b) ++ mkInvoiceText (b2 :: bs2) := by
        rw [mkInvoiceText_cons, List.append_assoc]
      show buildMatrices (pre ++ mkInvoiceText (b :: b2 :: bs2))
          ((pre.length, 24) :: boundariesSpec (b2 :: bs2)
            (pre.length + (blockText b).length))
        = blockText b :: (b2 :: bs2).map blockText
      have hbnd : boundariesSpec (b2 :: bs2) (pre.length + (blockText b).length)
          = (pre.length + (blockText b).length, 24)
            :: boundariesSpec bs2
              (pre.length + (blockText b).length + (blockText b2).length) := rfl
      rw [hbnd, buildMatrices_cons2]
      have hdrop : (pre ++ mkInvoiceText (b :: b2 :: bs2)).drop pre.length
          = blockText b ++ mkInvoiceText (b2 :: bs2) := by
        rw [mkInvoiceText_cons, List.drop_left]
      rw [hdrop]
      have harith : pre.length + (blockText b).length - pre.length
          = (blockText b).length := by omega
      rw [harith, List.take_left, pyStrip_block hb, if_neg h50]
      have hrest : buildMatrices (pre ++ mkInvoiceText (b :: b2 :: bs2))
          ((pre.length + (blockText b).length, 24)
            :: boundariesSpec bs2
              (pre.length + (blockText b).length + (blockText b2).length))
          = (b2 :: bs2).map blockText := by
        have hlen2 : (pre ++ blockText b).length
            = pre.length + (blockText b).length := List.length_append _ _
        have := ih (pre ++ blockText b) hbs
        rw [hlen2] at this
        rw [htext, ← hbnd]
        exact this
      rw [hrest]

/-! ### Exactly one identifier occurrence inside a block -/

theorem idMatchLen_none_head {c : Char} (s : List Char) (h : (c = '1') = False) :
    idMatchLen (c :: s) = none := by
  cases s with
  | nil => rfl
  | cons c2 rest => simp [idMatchLen, idAt, h]

theorem idMatchLen_none_snd {c c2 : Char} (s : List Char) (h : (c2 = 'Z') = False) :
    idMatchLen (c :: c2 :: s) = none := by
  simp [idMatchLen, idAt, h]

theorem idOccurrences_block {b : ShipBlock} (hb : WFBlock b) :
    idOccurrences (blockText b) = [6] := by
  obtain ⟨h1, h2, h3, h4, h16, hbody, hfill, hlen, hlast⟩ := hb
  have hbt : blockText b = b.d1 :: b.d2 :: '/' :: b.d3 :: b.d4 ::
      ' ' :: '1' :: 'Z' :: (b.idBody ++ b.filler) := rfl
  have n0 : idMatchLen (b.d1 :: b.d2 :: '/' :: b.d3 :: b.d4 ::
      ' ' :: '1' :: 'Z' :: (b.idBody ++ b.filler)) = none :=
    idMatchLen_none_snd _ (digit_ne_Z h2)
  have n1 : idMatchLen (b.d2 :: '/' :: b.d3 :: b.d4 ::
      ' ' :: '1' :: 'Z' :: (b.idBody ++ b.filler)) = none :=
    idMatchLen_none_snd _ (by decide)
  have n2 : idMatchLen ('/' :: b.d3 :: b.d4 ::
      ' ' :: '1' :: 'Z' :: (b.idBody ++ b.filler)) = none :=
    idMatchLen_none_head _ (by decide)
  have n3 : idMatchLen (b.d3 :: b.d4 ::
      ' ' :: '1' :: 'Z' :: (b.idBody ++ b.filler)) = none :=
    idMatchLen_none_snd _ (digit_ne_Z h4)
  have n4 : idMatchLen (b.d4 ::
      ' ' :: '1' :: 'Z' :: (b.idBody ++ b.filler)) = none :=
    idMatchLen_none_snd _ (by decide)
  have n5 : idMatchLen (' ' :: '1' :: 'Z' :: (b.idBody ++ b.filler)) = none :=
    idMatchLen_none_head _ (by decide)
  have htk : (b.idBody ++ b.filler).take 16 = b.idBody := by
    rw [← h16, List.take_left]
  have hall : b.idBody.all isIdChar = true := by
    rw [List.all_eq_true]
    intro c hc
    exact body_isIdChar (hbody c hc)
  have hsome : idMatchLen ('1' :: 'Z' :: (b.idBody ++ b.filler)) = some 18 := by
    simp [idMatchLen, idAt, htk, h16, hall]
  have hdrop18 : (('1' :: 'Z' :: (b.idBody ++ b.filler)) : List Char).drop 18
      = b.filler := by
    show (b.idBody ++ b.filler).drop 16 = b.filler
    rw [← h16, List.drop_left]
  unfold idOccurrences scanWith
  rw [hbt]
  rw [scanAt_cons_none _ _ n0, scanAt_cons_none _ _ n1, scanAt_cons_none _ _ n2,
    scanAt_cons_none _ _ n3, scanAt_cons_none _ _ n4, scanAt_cons_none _ _ n5]
  rw [scanAt_cons_some idMatchLen idMatchLen_pos _ hsome (by simp)]
  rw [hdrop18]
  have hskip : scanAt idMatchLen (b.filler ++ []) (0 + 1 + 1 + 1 + 1 + 1 + 1 + 18)
      = scanAt idMatchLen [] (0 + 1 + 1 + 1 + 1 + 1 + 1 + 18 + b.filler.length) :=
    scanAt_skip idMatchLen b.filler [] _
      (fun c hc tail => idMatchLen_none_head tail (filler_ne_one (hfill c hc)))
  rw [List.append_nil] at hskip
  rw [hskip]
  simp [scanAt, scanWithFrom]

/-! ### The segmenter claim -/

/-- C2: on an invoice text consisting of N well-formed shipment blocks
(each opening with the date-plus-identifier boundary pattern and running at
least 50 characters), `_split_into_enhanced_shipment_matrices` returns
exactly the N blocks, in order: each returned matrix is non-empty, meets
the 50-character minimum-length threshold under which a block would be
discarded as noise, and contains exactly one shipment identifier (the
occurrence at offset 6, after the DD/DD date and its space). -/
theorem C2_segmenter_blocks (blocks : List ShipBlock)
    (hwf : ∀ b ∈ blocks, WFBlock b) (hne : blocks ≠ []) :
    splitMatrices (mkInvoiceText blocks) = blocks.map blockText ∧
    (splitMatrices (mkInvoiceText blocks)).length = blocks.length ∧
    ∀ m ∈ splitMatrices (mkInvoiceText blocks),
      m ≠ [] ∧ 50 ≤ m.length ∧ idOccurrences m = [6] := by
  have hscan : scanWith matchBoundaryLen (mkInvoiceText blocks)
      = boundariesSpec blocks 0 := scanAt_mkText blocks hwf 0
  have hbne : boundariesSpec blocks 0 ≠ [] := by
    cases blocks with
    | nil => exact absurd rfl hne
    | cons b bs => simp [boundariesSpec]
  have hsp : splitMatrices (mkInvoiceText blocks) = blocks.map blockText := by
    show buildMatrices (mkInvoiceText blocks)
      (if scanWith matchBoundaryLen (mkInvoiceText blocks) = []
       then altBoundaries (mkInvoiceText blocks)
       else scanWith matchBoundaryLen (mkInvoiceText blocks))
      = blocks.map blockText
    rw [hscan, if_neg hbne]
    have := buildMatrices_spec blocks [] hwf
    simpa using this
  refine ⟨hsp, by rw [hsp, List.length_map], ?_⟩
  rw [hsp]
  intro m hm
  obtain ⟨b, hbmem, rfl⟩ := List.mem_map.mp hm
  have hb := hwf b hbmem
  refine ⟨by simp [blockText], ?_, idOccurrences_block hb⟩
  rw [blockText_length hb]
  have := hb.2.2.2.2.2.2.2.1
  omega

/-- A concrete well-formed block: `08/14 1ZAB123456789012345678` style
identifier followed by 26 filler characters ending in a letter. -/
def wBlockA : ShipBlock :=
  ⟨'0', '8', '1', '4',
   ['A', 'B', '1', '2', '3', '4', '5', '6', '7', '8', '9', '0', '1', '2', '3', '4'],
   List.replicate 25 ' ' ++ ['x']⟩

/-- A second concrete well-formed block with a different date and
identifier body. -/
def wBlockB : ShipBlock :=
  ⟨'0', '9', '2', '1',
   ['B', 'A', '9', '8', '7', '6', '5', '4', '3', '2', '1', '0', '9', '8', '7', '6'],
   List.replicate 30 ' ' ++ ['x', 'x']⟩

theorem C2_segmenter_blocks_witness :
    (∀ b ∈ [wBlockA, wBlockB], WFBlock b) ∧
    ([wBlockA, wBlockB] : List ShipBlock) ≠ [] ∧
    (splitMatrices (mkInvoiceText [wBlockA, wBlockB])
        = [wBlockA, wBlockB].map blockText ∧
      (splitMatrices (mkInvoiceText [wBlockA, wBlockB])).length
        = ([wBlockA, wBlockB] : List ShipBlock).length ∧
      ∀ m ∈ splitMatrices (mkInvoiceText [wBlockA, wBlockB]),
        m ≠ [] ∧ 50 ≤ m.length ∧ idOccurrences m = [6]) :=
  ⟨by decide, by simp,
    C2_segmenter_blocks [wBlockA, wBlockB] (by decide) (by simp)⟩

/-! ## The identity resolver and its deny list
(`app.py`, `_extract_five_fields`)

The resolver receives a shipment block, normalises its whitespace
(`' '.join(block.split())`), and fills the sender and receiver name and
address fields by three methods: explicit `Sender:` and `Receiver:`
label patterns (method 1), a pattern-based fallback with a deny-list
filter (method 2), and final clean-up substitutions (method 3).  The
`re.split` into `parts` at the top of method 2 is dead code (the
variable is never used) and omitted.  The embedding works on the
whitespace-normalised single-line text the function itself produces, so
`.*` reaching the end of the line reaches the end of the string;
quantifier backtracking is realised explicitly: lazy quantifiers try
shortest first, greedy runs are maximal, and the deterministic cases are
noted where backtracking cannot arise. -/

/-- Python `str.split()`: split on whitespace runs (fuelled by the input
length; every step consumes at least one character). -/
def pySplitWSF : Nat → List Char → List (List Char)
  | 0, _ => []
  | _ + 1, [] => []
  | fuel + 1, c :: rest =>
    if isWS c then pySplitWSF fuel rest
    else
      let w := (c :: rest).takeWhile (fun x => !isWS x)
      w :: pySplitWSF fuel ((c :: rest).drop w.length)

def pySplitWS (s : List Char) : List (List Char) := pySplitWSF s.length s

/-- Python `' '.join(ws)`. -/
def joinSpace : List (List Char) → List Char
  | [] => []
  | [w] => w
  | w :: ws => w ++ ' ' :: joinSpace ws

/-- `' '.join(block.split())`. -/
def normalizeBlock (s : List Char) : List Char := joinSpace (pySplitWS s)

/-- `[A-Z]` under `re.IGNORECASE`. -/
def isUpperCI (c : Char) : Bool := c.isAlpha

/-- `[A-Z]` without flags. -/
def isUpper (c : Char) : Bool := 'A' ≤ c && c ≤ 'Z'

/-- `\w`. -/
def isWordChar (c : Char) : Bool := c.isAlpha || c.isDigit || c = '_'

/-- `[A-Z]{2}\s+\d{5}(?:-\d{4})?` (case-insensitive) at the head, with
its length; the optional ZIP+4 group is greedy. -/
def g2AnchorLen (s : List Char) : Option Nat :=
  match s with
  | a :: b :: rest =>
    if isUpperCI a && isUpperCI b then
      let k := (rest.takeWhile isWS).length
      if k = 0 then none
      else
        let r2 := rest.drop k
        if (r2.take 5).length = 5 && (r2.take 5).all Char.isDigit then
          match r2.drop 5 with
          | '-' :: e1 :: e2 :: e3 :: e4 :: _ =>
            if e1.isDigit && e2.isDigit && e3.isDigit && e4.isDigit then
              some (2 + k + 5 + 5)
            else some (2 + k + 5)
          | _ => some (2 + k + 5)
        else none
    else none
  | _ => none

/-- The lazy `[^:]*?` run followed by the anchor above: shortest run
first.  Returns the whole consumed length. -/
def g2TailFrom : Nat → List Char → Option Nat
  | 0, s => g2AnchorLen s
  | fuel + 1, s =>
    match g2AnchorLen s with
    | some L => some L
    | none =>
      match s with
      | c :: rest => if c = ':' then none else (g2TailFrom fuel rest).map (· + 1)
      | [] => none

/-- Greedy `\d+` with backtracking (digit-run lengths longest first)
followed by the lazy tail. -/
def g2DigitLoop (s : List Char) : Nat → Option Nat
  | 0 => none
  | j + 1 =>
    let rest := s.drop (j + 1)
    match g2TailFrom rest.length rest with
    | some t => some (j + 1 + t)
    | none => g2DigitLoop s j

/-- Match length of the label patterns' second group
`\d+[^:]*?[A-Z]{2}\s+\d{5}(?:-\d{4})?` at the head. -/
def g2Len (s : List Char) : Option Nat :=
  let d := (s.takeWhile Char.isDigit).length
  if d = 0 then none else g2DigitLoop s d

/-- `[A-Za-z\s]`, the class of the label patterns' first group. -/
def isNameChar (c : Char) : Bool := c.isAlpha || isWS c

/-- The lazy `[A-Za-z\s]{2,40}?` of the label patterns: the tail length j
grows from 2 to 40 (shortest first); at each j the mandatory `\s+` and
the second group are tried.  When the j-th character falls outside the
class no longer j can match either, so the loop stops.  Returns the
group-1 tail length and the captured group 2. -/
def g1Loop (r4 : List Char) : Nat → Nat → Option (Nat × List Char)
  | _, 0 => none
  | j, budget + 1 =>
    if (r4.take j).length = j && (r4.take j).all isNameChar then
      let rest := r4.drop j
      let k := (rest.takeWhile isWS).length
      if k = 0 then g1Loop r4 (j + 1) budget
      else
        match g2Len (rest.drop k) with
        | some L2 => some (j, (rest.drop k).take L2)
        | none => g1Loop r4 (j + 1) budget
    else none

/-- Match of `<label>\s*:\s*([A-Z][A-Za-z\s]{2,40}?)\s+(<group 2>)` at
the head (case-insensitive), returning the two captured groups.  The
greedy `\s*` runs cannot backtrack: a whitespace character is neither
`:` nor a letter. -/
def labelFieldAt (label : List Char) (s : List Char) :
    Option (List Char × List Char) :=
  match stripCI label s with
  | none => none
  | some r1 =>
    let k1 := (r1.takeWhile isWS).length
    match r1.drop k1 with
    | ':' :: r2 =>
      let k2 := (r2.takeWhile isWS).length
      match r2.drop k2 with
      | c :: r4 =>
        if isUpperCI c then
          match g1Loop r4 2 39 with
          | some (j, g2) => some (c :: r4.take j, g2)
          | none => none
        else none
      | [] => none
    | _ => none

/-- `re.search` of a label pattern: leftmost starting position wins. -/
def searchLabelField (label : List Char) : Nat → List Char →
    Option (List Char × List Char)
  | 0, s => labelFieldAt label s
  | fuel + 1, s =>
    match labelFieldAt label s with
    | some r => some r
    | none =>
      match s with
      | _ :: rest => searchLabelField label fuel rest
      | [] => none

/-- `re.sub(r'\s+\d+.*', '', s)` on single-line text: cut at the first
whitespace run followed by a digit. -/
def cutWsDigits : List Char → List Char
  | [] => []
  | c :: rest =>
    if isWS c &&
        (match (c :: rest).dropWhile isWS with
         | d :: _ => d.isDigit
         | [] => false) then []
    else c :: cutWsDigits rest

/-- Method 1 of `_extract_five_fields` for one label: on a match, the
name is the stripped first group with any trailing `\s+\d+.*` removed; it
is kept, together with the stripped group-2 address, only when at least
4 characters long and not starting with a digit. -/
def method1Field (label : List Char) (block : List Char) :
    Option (List Char × List Char) :=
  match searchLabelField label block.length block with
  | none => none
  | some (g1, g2) =>
    let potential_name := pyStrip g1
    let potential_address := pyStrip g2
    let clean_name := pyStrip (cutWsDigits potential_name)
    if decide (4 ≤ clean_name.length) &&
        (match clean_name with
         | d :: _ => !d.isDigit
         | [] => true) then
      some (clean_name, potential_address)
    else none

/-- The deny-list alternatives of method 2's name filter (`USERIDS?`
contributes both spellings). -/
def denyWords : List (List Char) :=
  ["delivery", "service", "invoice", "customer", "weight", "residential",
   "surcharge", "fuel", "dimensions", "total", "userids", "userid",
   "sender", "receiver", "ground", "next", "day", "air", "tracking",
   "number", "account", "page", "venture", "ct", "ky", "nv", "ave",
   "street", "st", "road", "rd", "drive", "dr", "lane", "ln", "court",
   "blvd", "boulevard"].map String.toList

/-- `(\s+\w+)*$`: whitespace-separated word-character runs up to the end
(both runs greedy; a maximal word run is followed by whitespace or the
end, so no backtracking arises). -/
def wordsTailLoop : Nat → List Char → Bool
  | _, [] => true
  | 0, _ => false
  | fuel + 1, c :: rest =>
    if isWS c then
      let r1 := (c :: rest).dropWhile isWS
      let w := r1.takeWhile isWordChar
      if w = [] then false else wordsTailLoop fuel (r1.drop w.length)
    else false

/-- `re.match` of the deny regex
`^(DELIVERY|...|BOULEVARD)(\s+\w+)*$` with `re.IGNORECASE`: some deny
word is a case-insensitive prefix of the name and the remainder is a
sequence of whitespace-separated words. -/
def denyMatch (name : List Char) : Bool :=
  denyWords.any (fun w =>
    match stripCI w name with
    | some r => wordsTailLoop r.length r
    | none => false)

/-- Maximal `[A-Z]+` run length. -/
def upRun (s : List Char) : Nat := (s.takeWhile isUpper).length

/-- `\b` at the position after a match: end of text or a non-word
character. -/
def boundaryAfter : List Char → Bool
  | [] => true
  | c :: _ => !isWordChar c

/-- The greedy `(?:\s+[A-Z]{2,})*` continuation of the name pattern with
the final `\b`: a further group is taken whenever possible (greedy) and
dropped again when the boundary ultimately fails behind it.  A maximal
upper-case run is never shrunk: the character after it would then be
upper case, a word character, and `\b` would still fail. -/
def nameExtFrom : Nat → List Char → Option Nat
  | 0, s => if boundaryAfter s then some 0 else none
  | fuel + 1, s =>
    let k := (s.takeWhile isWS).length
    let m := upRun (s.drop k)
    if decide (1 ≤ k) && decide (2 ≤ m) then
      match nameExtFrom fuel (s.drop (k + m)) with
      | some e => some (k + m + e)
      | none => if boundaryAfter s then some 0 else none
    else if boundaryAfter s then some 0 else none

/-- Match length of `[A-Z]{2,}(?:\s+[A-Z]{2,})*\b` at the head (the
leading `\b` is handled by the scanner). -/
def nameMatchLen (s : List Char) : Option Nat :=
  let m := upRun s
  if 2 ≤ m then (nameExtFrom (s.drop m).length (s.drop m)).map (fun e => m + e)
  else none

/-- `re.finditer` for the name pattern: a match may start only at a word
boundary (start of text, or after a non-word character; after a previous
match the preceding character is upper case, so no match starts there);
scanning resumes past each match. -/
def nameScanFrom : Nat → Bool → List Char → Nat → List (List Char × Nat)
  | 0, _, _, _ => []
  | _ + 1, _, [], _ => []
  | fuel + 1, bOK, c :: rest, pos =>
    match (if bOK then nameMatchLen (c :: rest) else none) with
    | some L =>
      ((c :: rest).take L, pos)
        :: nameScanFrom fuel false ((c :: rest).drop L) (pos + L)
    | none => nameScanFrom fuel (!isWordChar c) rest (pos + 1)

/-- `all_names` of method 2: every name-pattern occurrence that does not
match the deny regex, contains no digit and is 4 to 40 characters long,
paired with its start position. -/
def all_names (block : List Char) : List (List Char × Nat) :=
  (nameScanFrom block.length true block 0).filter (fun p =>
    !denyMatch p.1 && !(p.1.any Char.isDigit) &&
      decide (4 ≤ p.1.length) && decide (p.1.length ≤ 40))

/-- The service words removed from address candidates. -/
def svcWords : List (List Char) :=
  ["ground", "air", "next", "day", "residential", "commercial"].map
    String.toList

/-- Try the alternatives in source order; an alternative matches when the
word strips and mandatory trailing whitespace follows. -/
def svcTry (r : List Char) (k : Nat) : List (List Char) → Option Nat
  | [] => none
  | w :: ws =>
    match stripCI w r with
    | some r2 =>
      let k2 := (r2.takeWhile isWS).length
      if k2 = 0 then svcTry r k ws else some (k + w.length + k2)
    | none => svcTry r k ws

/-- `\s+(Ground|Air|Next|Day|Residential|Commercial)\s+`
(case-insensitive) at the head, with its length. -/
def svcMatchAt (s : List Char) : Option Nat :=
  let k := (s.takeWhile isWS).length
  if k = 0 then none else svcTry (s.drop k) k svcWords

/-- `re.sub` of the pattern above with `' '`: each non-overlapping
occurrence is replaced by one space, scanning resuming after the
consumed text. -/
def subSvc : Nat → List Char → List Char
  | 0, s => s
  | _ + 1, [] => []
  | fuel + 1, c :: rest =>
    match svcMatchAt (c :: rest) with
    | some L => ' ' :: subSvc fuel ((c :: rest).drop L)
    | none => c :: subSvc fuel rest

/-- The labels that truncate an address candidate. -/
def cutWords : List (List Char) :=
  ["service", "surcharge", "weight", "total"].map String.toList

/-- Some word of the list strips (case-insensitively) and ends at a word
boundary. -/
def cutTryWord (r : List Char) : List (List Char) → Bool
  | [] => false
  | w :: ws =>
    match stripCI w r with
    | some r2 => boundaryAfter r2 || cutTryWord r ws
    | none => cutTryWord r ws

/-- `\s+(Service|Surcharge|Weight|Total)\b` fires at the head. -/
def cutSvcAt (s : List Char) : Bool :=
  let k := (s.takeWhile isWS).length
  decide (1 ≤ k) && cutTryWord (s.drop k) cutWords

/-- `re.sub(r'\s+(Service|Surcharge|Weight|Total)\b.*', '', s)` on
single-line text: cut at the first occurrence. -/
def cutSvcTail : List Char → List Char
  | [] => []
  | c :: rest => if cutSvcAt (c :: rest) then [] else c :: cutSvcTail rest

/-- Match length of the address pattern
`\d+\s+[A-Z0-9][^:]*?[A-Z]{2}\s+\d{5}(?:-\d{4})?` (case-insensitive) at
the head.  Digit-run lengths are tried longest first, though only the
maximal run can be followed by the mandatory whitespace. -/
def addrDigitLoop (s : List Char) : Nat → Option Nat
  | 0 => none
  | j + 1 =>
    let rest := s.drop (j + 1)
    let k := (rest.takeWhile isWS).length
    if k = 0 then addrDigitLoop s j
    else
      match rest.drop k with
      | c :: r2 =>
        if c.isAlpha || c.isDigit then
          match g2TailFrom r2.length r2 with
          | some t => some (j + 1 + k + 1 + t)
          | none => addrDigitLoop s j
        else addrDigitLoop s j
      | [] => addrDigitLoop s j

def addrMatchLen (s : List Char) : Option Nat :=
  let d := (s.takeWhile Char.isDigit).length
  if d = 0 then none else addrDigitLoop s d

/-- `all_addresses` of method 2: address-pattern occurrences, cleaned of
service words and of trailing service labels, whitespace-normalised,
kept when at least 10 characters long, paired with their start
positions. -/
def all_addresses (block : List Char) : List (List Char × Nat) :=
  (scanWith addrMatchLen block).filterMap (fun p =>
    let addr := (block.drop p.1).take p.2
    let cleaned := normalizeBlock (cutSvcTail (subSvc addr.length addr))
    if 10 ≤ cleaned.length then some (cleaned, p.1) else none)

/-- `<label>\s*:` (case-insensitive) at the head, with its length. -/
def labelColonLen (label : List Char) (s : List Char) : Option Nat :=
  match stripCI label s with
  | none => none
  | some r1 =>
    let k := (r1.takeWhile isWS).length
    match r1.drop k with
    | ':' :: _ => some (label.length + k + 1)
    | _ => none

/-- `re.search` of `<label>\s*:`: start and end of the first match. -/
def searchLabelColon (label : List Char) : Nat → List Char → Nat →
    Option (Nat × Nat)
  | 0, s, pos => (labelColonLen label s).map (fun L => (pos, pos + L))
  | fuel + 1, s, pos =>
    match labelColonLen label s with
    | some L => some (pos, pos + L)
    | none =>
      match s with
      | _ :: rest => searchLabelColon label fuel rest (pos + 1)
      | [] => none

/-- The five-field record `_extract_five_fields` returns
(`tracking_number` is left empty and filled in by the caller). -/
structure FiveFields where
  tracking_number : List Char
  sender_name : List Char
  sender_address : List Char
  receiver_name : List Char
  receiver_address : List Char

/-- `sender_section_end > 0 and pos > sender_section_end and
pos < receiver_section_start`: the position filter for the sender slots
(`sender_section_end` is -1 when `Sender\s*:` is absent, so the guard is
then false; `receiver_section_start` is infinite when `Receiver\s*:` is
absent, so the upper bound then always holds). -/
def senderGuardOf (block : List Char) : Nat → Bool := fun pos =>
  match (searchLabelColon ("sender".toList) block.length block 0).map Prod.snd,
    (searchLabelColon ("receiver".toList) block.length block 0).map Prod.fst with
  | some e, some r => decide (0 < e) && decide (e < pos) && decide (pos < r)
  | some e, none => decide (0 < e) && decide (e < pos)
  | none, _ => false

/-- `pos > receiver_section_start` (false when `Receiver\s*:` is
absent). -/
def receiverGuardOf (block : List Char) : Nat → Bool := fun pos =>
  match (searchLabelColon ("receiver".toList) block.length block 0).map
      Prod.fst with
  | some r => decide (r < pos)
  | none => false

/-- The sender-slot assignment stanza of method 2 (used for the name and
for the address): when the current value is empty and candidates exist,
the first candidate passing the guard, else the first candidate. -/
def pickSender (cands : List (List Char × Nat)) (g : Nat → Bool)
    (cur : List Char) : List Char :=
  if cur = [] then
    match cands with
    | [] => cur
    | c0 :: _ =>
      match cands.find? (fun p => g p.2) with
      | some p => p.1
      | none => c0.1
  else cur

/-- The receiver-slot assignment stanza of method 2: when the current
value is empty and more than one candidate exists, the first candidate
passing the guard, else the last candidate. -/
def pickReceiver (cands : List (List Char × Nat)) (g : Nat → Bool)
    (cur : List Char) : List Char :=
  if cur = [] ∧ 1 < cands.length then
    match cands.find? (fun p => g p.2) with
    | some p => p.1
    | none => ((cands.getLast?).map Prod.fst).getD cur
  else cur

/-- Method 2, the pattern-based fallback: positional assignment of the
filtered name and address candidates relative to the `Sender\s*:` match
end and the `Receiver\s*:` match start, with first-candidate and
last-candidate fallbacks.  Runs only when method 1 left a name empty. -/
def method2 (block : List Char) (d : FiveFields) : FiveFields :=
  if d.sender_name = [] ∨ d.receiver_name = [] then
    { d with
      sender_name :=
        pickSender (all_names block) (senderGuardOf block) d.sender_name,
      receiver_name :=
        pickReceiver (all_names block) (receiverGuardOf block) d.receiver_name,
      sender_address :=
        pickSender (all_addresses block) (senderGuardOf block) d.sender_address,
      receiver_address :=
        pickReceiver (all_addresses block) (receiverGuardOf block)
          d.receiver_address }
  else d

/-- `re.sub(r'\s+\d+\s+.*', '', s)` on single-line text: cut at the
first whitespace run, digit run, whitespace sequence (the greedy runs
are deterministic: a digit is not whitespace and vice versa). -/
def cutWsDigitsWs : List Char → List Char
  | [] => []
  | c :: rest =>
    if (let k := ((c :: rest).takeWhile isWS).length
        let r1 := (c :: rest).drop k
        let dd := (r1.takeWhile Char.isDigit).length
        decide (1 ≤ k) && decide (1 ≤ dd) &&
          decide (1 ≤ ((r1.drop dd).takeWhile isWS).length))
    then []
    else c :: cutWsDigitsWs rest

/-- The address words of the method-3 name clean-up. -/
def addrSuffixWords : List (List Char) :=
  ["ct", "court", "ave", "avenue", "st", "street", "rd", "road", "dr",
   "drive", "blvd", "boulevard", "ln", "lane"].map String.toList

/-- `\s+(CT|COURT|...|LANE)\b` (case-insensitive) fires at the head. -/
def cutAddrAt (s : List Char) : Bool :=
  let k := (s.takeWhile isWS).length
  decide (1 ≤ k) && cutTryWord (s.drop k) addrSuffixWords

/-- `re.sub(r'\s+(CT|COURT|...|LANE)\b.*', '', s)` on single-line text:
cut at the first occurrence. -/
def cutAddrWord : List Char → List Char
  | [] => []
  | c :: rest => if cutAddrAt (c :: rest) then [] else c :: cutAddrWord rest

/-- One occurrence of `\s+[A-Z]{2}\s+\d` (case-sensitive, digit
included), with its length. -/
def stateDigitAt (s : List Char) : Option Nat :=
  let k := (s.takeWhile isWS).length
  if k = 0 then none
  else
    match s.drop k with
    | a :: b :: r2 =>
      if isUpper a && isUpper b then
        let k2 := (r2.takeWhile isWS).length
        if k2 = 0 then none
        else
          match r2.drop k2 with
          | d :: _ => if d.isDigit then some (k + 2 + k2 + 1) else none
          | [] => none
      else none
    | _ => none

/-- `re.sub(r'\s+[A-Z]{2}\s+\d', '', s)`: every non-overlapping
occurrence removed, the matched digit included. -/
def subStateDigit : Nat → List Char → List Char
  | 0, s => s
  | _ + 1, [] => []
  | fuel + 1, c :: rest =>
    match stateDigitAt (c :: rest) with
    | some L => subStateDigit fuel ((c :: rest).drop L)
    | none => c :: subStateDigit fuel rest

/-- Method 3: the final name clean-up, applied only to a non-empty name
(Python truthiness); a result shorter than 4 characters is replaced by
the empty string. -/
def cleanupName (name : List Char) : List Char :=
  if name = [] then name
  else
    let c1 := pyStrip (cutWsDigitsWs name)
    let c2 := pyStrip (cutAddrWord c1)
    let c3 := pyStrip (subStateDigit c2.length c2)
    if 4 ≤ c3.length then c3 else []

/-- Embedding of `_extract_five_fields` (`app.py`): normalise, method 1
for each label, method 2, method 3 on both names. -/
def extract_five_fields (block0 : List Char) : FiveFields :=
  let block := normalizeBlock block0
  let d0 : FiveFields := ⟨[], [], [], [], []⟩
  let d1 :=
    match method1Field ("sender".toList) block with
    | some (n, a) => { d0 with sender_name := n, sender_address := a }
    | none => d0
  let d2 :=
    match method1Field ("receiver".toList) block with
    | some (n, a) => { d1 with receiver_name := n, receiver_address := a }
    | none => d1
  let d3 := method2 block d2
  { d3 with sender_name := cleanupName d3.sender_name,
            receiver_name := cleanupName d3.receiver_name }

/-! ### The deny-list claim -/

/-- The concrete block of the counterexample: a surcharge label happens
to follow the explicit `Sender:` marker. -/
def exC5Block : List Char :=
  ("Sender: RESIDENTIAL SURCHARGE 123 MAIN ST KY 40202 " ++
   "Receiver: JOHN SMITH 456 OAK AVE KY 40203").toList

/-- C5, refuted as stated: on `exC5Block` the resolver returns
`sender_name = "RESIDENTIAL SURCHARGE"`, a phrase the deny regex
matches.  Method 1 (the explicit `Sender:`/`Receiver:` label patterns)
performs no deny-list filtering; only the method-2 fallback does. -/
theorem C5_counterexample :
    (extract_five_fields exC5Block).sender_name
      = "RESIDENTIAL SURCHARGE".toList ∧
    denyMatch ("RESIDENTIAL SURCHARGE".toList) = true := by
  constructor
  · rfl
  · decide

/-- Every method-2 name candidate passes the deny filter. -/
theorem mem_all_names_deny {block : List Char} {p : List Char × Nat}
    (hp : p ∈ all_names block) : denyMatch p.1 = false := by
  unfold all_names at hp
  have h := (List.mem_filter.mp hp).2
  simp only [Bool.and_eq_true, Bool.not_eq_true'] at h
  exact h.1.1.1

/-- Every value `pickSender` assigns is the current value or a
candidate. -/
theorem pickSender_spec (cands : List (List Char × Nat)) (g : Nat → Bool)
    (cur : List Char) :
    pickSender cands g cur = cur ∨
      ∃ p ∈ cands, pickSender cands g cur = p.1 := by
  unfold pickSender
  by_cases hc : cur = []
  · rw [if_pos hc]
    cases cands with
    | nil => exact Or.inl rfl
    | cons c0 cs =>
      cases hf : (c0 :: cs).find? (fun p => g p.2) with
      | some p => exact Or.inr ⟨p, List.mem_of_find?_eq_some hf, rfl⟩
      | none => exact Or.inr ⟨c0, List.mem_cons_self c0 cs, rfl⟩
  · rw [if_neg hc]
    exact Or.inl rfl

/-- Every value `pickReceiver` assigns is the current value or a
candidate. -/
theorem pickReceiver_spec (cands : List (List Char × Nat)) (g : Nat → Bool)
    (cur : List Char) :
    pickReceiver cands g cur = cur ∨
      ∃ p ∈ cands, pickReceiver cands g cur = p.1 := by
  unfold pickReceiver
  by_cases hc : cur = [] ∧ 1 < cands.length
  · rw [if_pos hc]
    cases hf : cands.find? (fun p => g p.2) with
    | some p => exact Or.inr ⟨p, List.mem_of_find?_eq_some hf, rfl⟩
    | none =>
      cases hl : cands.getLast? with
      | none => exact Or.inl rfl
      | some q =>
        refine Or.inr ⟨q, List.mem_of_mem_getLast? hl, ?_⟩
        simp
  · rw [if_neg hc]
    exact Or.inl rfl

/-- C5 (amended): the deny-list guarantee holds for the pattern-based
fallback (method 2) only: whenever method 2 changes a name field, the
value it assigns is drawn from the filtered candidate list and never
matches the deny regex; a name captured by method 1 through the explicit
`Sender:`/`Receiver:` label patterns bypasses the deny list entirely, as
`C5_counterexample` shows. -/
theorem C5_method2_deny (block : List Char) (d : FiveFields) :
    ((method2 block d).sender_name = d.sender_name ∨
      denyMatch (method2 block d).sender_name = false) ∧
    ((method2 block d).receiver_name = d.receiver_name ∨
      denyMatch (method2 block d).receiver_name = false) := by
  unfold method2
  by_cases hrun : d.sender_name = [] ∨ d.receiver_name = []
  case neg =>
    rw [if_neg hrun]
    exact ⟨Or.inl rfl, Or.inl rfl⟩
  case pos =>
    rw [if_pos hrun]
    constructor
    · show pickSender (all_names block) (senderGuardOf block) d.sender_name
          = d.sender_name ∨
        denyMatch (pickSender (all_names block) (senderGuardOf block)
          d.sender_name) = false
      rcases pickSender_spec (all_names block) (senderGuardOf block)
          d.sender_name with h | ⟨p, hp, h⟩
      · exact Or.inl h
      · exact Or.inr (h ▸ mem_all_names_deny hp)
    · show pickReceiver (all_names block) (receiverGuardOf block)
          d.receiver_name = d.receiver_name ∨
        denyMatch (pickReceiver (all_names block) (receiverGuardOf block)
          d.receiver_name) = false
      rcases pickReceiver_spec (all_names block) (receiverGuardOf block)
          d.receiver_name with h | ⟨p, hp, h⟩
      · exact Or.inl h
      · exact Or.inr (h ▸ mem_all_names_deny hp)

end UPSParse
